import Mathlib

/-!
# Verification of the mypy-upgrade suppression engine

This development embeds the core of the `mypy-upgrade` repository
(`src/mypy_upgrade/{parsing,filter,editing,silence,utils}.py`) into Lean 4 and
proves/refutes the specification claims about it.

Modelling conventions:
* Python `str` is modelled as `List Char` (`PyStr`); all string primitives used
  by the code (`strip`, `rstrip`, `lstrip(chars)`, `replace`, `split`, `join`,
  `endswith`, …) are defined below with Python semantics.
* Python exceptions are modelled with `Except PyExc`; the pipeline functions
  return `Except` values and the report loop catches exactly the exception
  kinds the source catches.
* The host tokenizer (CPython `tokenize`) is an external collaborator (spec
  §9); token streams are passed in as explicit values / a tokenizer function
  parameter, and theorems quantify over them.
* `re` patterns appearing in the source are embedded as deterministic matchers;
  each matcher's derivation from the pattern (greediness/backtracking
  analysis) is documented at its definition.
-/

set_option linter.unusedVariables false

namespace MypyUpgrade

deriving instance DecidableEq for Except

/-- Python strings, modelled as lists of characters. -/
abbrev PyStr := List Char

/-- Python's default whitespace set for `str.strip()` / `\s` (ASCII part;
the sources only ever meet ASCII whitespace). -/
def isPyWs (c : Char) : Bool :=
  c = ' ' || c = '\t' || c = '\n' || c = '\r' || c = '\x0b' || c = '\x0c'

/-- `str.lstrip(chars)`: drop leading characters that satisfy `p`. -/
def pyLstripP (p : Char → Bool) (s : PyStr) : PyStr :=
  s.dropWhile p

/-- `str.rstrip(chars)`: drop trailing characters that satisfy `p`. -/
def pyRstripP (p : Char → Bool) (s : PyStr) : PyStr :=
  (s.reverse.dropWhile p).reverse

/-- `str.strip()` (default whitespace). -/
def pyStrip (s : PyStr) : PyStr :=
  pyRstripP isPyWs (pyLstripP isPyWs s)

/-- `str.rstrip()` (default whitespace). -/
def pyRstrip (s : PyStr) : PyStr :=
  pyRstripP isPyWs s

/-- Membership of a character in a Python `strip`-style character set. -/
def charIn (cs : List Char) (c : Char) : Bool :=
  decide (c ∈ cs)

/-- `str.endswith(suffix)`. -/
def pyEndsWith (s suffix : PyStr) : Bool :=
  suffix.isSuffixOf s

/-- `str.startswith(prefix)`. -/
def pyStartsWith (s pre : PyStr) : Bool :=
  pre.isPrefixOf s

/-- `str.replace(old, new)`, all non-overlapping occurrences, left to right.
For `old = []` CPython interleaves `new` between all characters; every call
site in the sources that can pass an empty `old` passes `new = ""` as well,
for which CPython's result is the unchanged string, as here.
`pyReplaceGo` scans with a skip counter: `skip` pending characters belong to
an already-replaced occurrence. -/
def pyReplaceGo (old new : PyStr) (skip : Nat) : PyStr → PyStr
  | [] => []
  | c :: t =>
      match skip with
      | k + 1 => pyReplaceGo old new k t
      | 0 =>
          if old.isPrefixOf (c :: t) then
            new ++ pyReplaceGo old new (old.length - 1) t
          else
            c :: pyReplaceGo old new 0 t

def pyReplace (s old new : PyStr) : PyStr :=
  if old.isEmpty then s else pyReplaceGo old new 0 s

/-- `str.split(sep)` for a single-character separator (Python semantics:
`"".split(",") = [""]`, separators at the ends produce empty fields). -/
def pySplitChar (sep : Char) (s : PyStr) : List PyStr :=
  match s with
  | [] => [[]]
  | c :: rest =>
      let tail := pySplitChar sep rest
      if c = sep then [] :: tail
      else
        match tail with
        | [] => [[c]]
        | t :: ts => (c :: t) :: ts

/-- `sep.join(parts)`. -/
def pyJoin (sep : PyStr) (parts : List PyStr) : PyStr :=
  List.intercalate sep parts

/-- Python `set(...)` of strings, realised as first-occurrence deduplication.
(CPython's set iteration order is unspecified; every use in the sources is
order-insensitive — the result is either sorted afterwards or used only for
membership — so a deterministic representative order is sound.) -/
def pySet (l : List PyStr) : List PyStr :=
  match l with
  | [] => []
  | x :: xs => x :: (pySet xs).filter (fun y => y ≠ x)

/-- Worker for `pySplitlines`: `cur` is the (reversed) current line. -/
def pySplitlinesGo (cur : PyStr) (s : PyStr) : List PyStr :=
  match s with
  | [] => [cur.reverse]
  | '\r' :: '\n' :: r =>
      cur.reverse :: (if r.isEmpty then [] else pySplitlinesGo [] r)
  | '\r' :: r =>
      cur.reverse :: (if r.isEmpty then [] else pySplitlinesGo [] r)
  | '\n' :: r =>
      cur.reverse :: (if r.isEmpty then [] else pySplitlinesGo [] r)
  | c :: r => pySplitlinesGo (c :: cur) r

/-- `str.splitlines()` restricted to the line boundaries `\n`, `\r\n`, `\r`
(the only terminators the guest sources produce or read). -/
def pySplitlines (s : PyStr) : List PyStr :=
  match s with
  | [] => []
  | _ :: _ => pySplitlinesGo [] s

/-- Lexicographic (code-point) strict order on Python strings. -/
def pyStrLt (a b : PyStr) : Bool :=
  match a, b with
  | [], [] => false
  | [], _ :: _ => true
  | _ :: _, [] => false
  | x :: xs, y :: ys => x < y || (x = y && pyStrLt xs ys)

/-- Lexicographic (code-point) `≤` on Python strings. -/
def pyStrLe (a b : PyStr) : Bool :=
  pyStrLt a b || a = b

/-- `max` of a nonempty list of Python strings (Python `max` keeps the first
maximal element; for the total string order the value is the maximum). -/
def pyStrMax (l : List PyStr) (d : PyStr) : PyStr :=
  l.foldl (fun acc x => if pyStrLt acc x then x else acc) d

/-- Python list indexing with negative-index wrap-around, `none` = `IndexError`. -/
def pyGetIdx (l : List α) (i : Int) : Option α :=
  if 0 ≤ i then l.get? i.toNat
  else if (-i).toNat ≤ l.length then l.get? (l.length - (-i).toNat)
  else none

/-- Python list item assignment with negative-index wrap-around,
`none` = `IndexError`. -/
def pySetIdx (l : List α) (i : Int) (a : α) : Option (List α) :=
  if 0 ≤ i then
    if i.toNat < l.length then some (l.set i.toNat a) else none
  else if (-i).toNat ≤ l.length then some (l.set (l.length - (-i).toNat) a)
  else none

/-- Worker for `pyGroupBy`: `a` is the current group's first element (its
key representative, as in CPython's `groupby`), `cur` the rest of the
current group in reverse. -/
def pyGroupByGo (eq : α → α → Bool) : α → List α → List α → List (List α)
  | a, cur, [] => [a :: cur.reverse]
  | a, cur, x :: xs =>
      if eq a x then pyGroupByGo eq a (x :: cur) xs
      else (a :: cur.reverse) :: pyGroupByGo eq x [] xs

/-- `itertools.groupby` over a list: maximal runs of adjacent elements whose
keys equal the run's first key. -/
def pyGroupBy (eq : α → α → Bool) : List α → List (List α)
  | [] => []
  | a :: rest => pyGroupByGo eq a [] rest

/-! ## Python exceptions raised / caught by the engine -/

/-- The exception kinds reachable in the modelled code paths:
`FileNotFoundError` (opening a target file), `tokenize.TokenError`,
`AttributeError` (`None.group` in `remove_unused_type_ignore_comments`),
`IndexError` (list subscripts), `TypeError` (ordering `None` against `int`),
`RecursionError` (CPython's recursion limit, reached by unbounded
`find_safe_end_line` recursion). -/
inductive PyExc where
  | fileNotFound
  | tokenError
  | attributeError
  | indexError
  | typeError
  | recursionError
deriving DecidableEq, Repr

/-! ## Data model (`parsing.py`)

`MypyError` is the `NamedTuple` of `parsing.py`:
`(filename, line_no, col_offset, message, error_code)`.
`col_offset` is `None`-able; parsed line numbers are integers. -/

structure MypyError where
  filename : PyStr
  line_no : Int
  col_offset : Option Int
  message : PyStr
  error_code : PyStr
deriving DecidableEq, Repr

/-! ## `filter.py`: unsilenceable regions and the safety analysis -/

/-- `filter.UnsilenceableRegion`: 1-indexed start/end lines.
`start = end` denotes an explicitly continued line, `start ≠ end` a
multi-line string literal.  (Field `end` is `end_` — `end` is reserved.) -/
structure UnsilenceableRegion where
  start : Int
  end_ : Int
deriving DecidableEq, Repr

/-- Token kinds distinguished by the engine (`tokenize.STRING`,
`tokenize.COMMENT`; everything else is `OTHER`). -/
inductive TokKind where
  | STRING
  | COMMENT
  | OTHER
deriving DecidableEq, Repr

/-- `tokenize.TokenInfo`, restricted to the fields the engine reads:
`exact_type`, `start`, `end`, `line` (the physical source line(s) of the
token) and `string` (the token text). -/
structure Token where
  exact_type : TokKind
  start : Int × Int
  end_ : Int × Int
  line : PyStr
  string : PyStr
deriving DecidableEq, Repr

/-- `filter._find_unsilenceable_regions(tokens=…, comments=…)`.

A multi-line `STRING` token contributes `(start line, end line)`; a token
whose physical line ends in `\` with no comment on its end line contributes
`(end line, end line)`.  The source accumulates into a `set` and returns
`list(set)`; the iteration order of that set is unspecified in CPython and
every consumer is order-insensitive, so the model deduplicates keeping first
occurrences.  (`comments[token.end[0] - 1]` raises `IndexError` when out of
range in Python; the tokenizer contract keeps it in range, and the model
totalises with an empty default.)

First-occurrence deduplication of regions models `list(set(…))`. -/
def dedupRegions : List UnsilenceableRegion → List UnsilenceableRegion
  | [] => []
  | x :: xs => x :: (dedupRegions xs).filter (fun y => y ≠ x)

def _find_unsilenceable_regions (tokens : List Token) (comments : List PyStr) :
    List UnsilenceableRegion :=
  let step : List UnsilenceableRegion → Token → List UnsilenceableRegion :=
    fun acc token =>
      if token.start.1 ≠ token.end_.1 && token.exact_type = TokKind.STRING then
        acc ++ [⟨token.start.1, token.end_.1⟩]
      else if pyEndsWith (pyRstripP (fun c => c = '\r' || c = '\n') token.line) ['\\']
          && ((comments.getD (token.end_.1 - 1).toNat []).isEmpty) then
        acc ++ [⟨token.end_.1, token.end_.1⟩]
      else acc
  dedupRegions (tokens.foldl step [])

/-- `filter._is_safe_to_silence(error=…, unsilenceable_regions=…)`:

```
if error.error_code == "syntax": return False
for region in unsilenceable_regions:
    if region.start <= error.line_no <= region.end and not (
        error.line_no == region.end and region.start != region.end
    ):
        return False
return True
``` -/
def _is_safe_to_silence (error : MypyError) (regions : List UnsilenceableRegion) :
    Bool :=
  if error.error_code = "syntax".data then
    false
  else
    regions.all fun r =>
      !(decide (r.start ≤ error.line_no) && decide (error.line_no ≤ r.end_) &&
        !(decide (error.line_no = r.end_) && decide (r.start ≠ r.end_)))

/-- `filter.filter_by_silenceability(errors=…, comments=…, tokens=…)`:
keep the errors that are safe to silence, given the regions computed from
the token stream. -/
def filter_by_silenceability (errors : List MypyError) (comments : List PyStr)
    (tokens : List Token) : List MypyError :=
  let regions := _find_unsilenceable_regions tokens comments
  errors.filter (fun e => _is_safe_to_silence e regions)

/-! ## The `type: ignore` regular expressions

The sources use three variants of one pattern:

* `P1 = type\s*:\s*ignore(\[(?P<code>[a-z, \-]+)\])?`
  (`editing.add_type_ignore_comment`, `editing.format_type_ignore_comment`,
  `editing.remove_unused_type_ignore_comments`);
* `P2 = type\s*:\s*ignore\s*(?:\[(?P<code>[a-z, \-]+)\])?`
  (`parsing.string_to_error_codes`);
* `P3 = type\s*:\s*ignore\s*(\[\])?`
  (the deletion `re.sub` inside `format_type_ignore_comment`).

All three are deterministic for CPython's backtracking engine:
each `\s*` is followed by a non-whitespace requirement (`:`, `i`, `[`),
so the maximal whitespace run is the only viable one; the bracket group
requires `[`, then a nonempty run over the class `[a-z, \-]`, then `]` —
since `]` is not in the class, shrinking the greedy run can never help, so
the group matches exactly when the maximal class run is nonempty and is
followed by `]`, and otherwise the optional group matches the empty string.
The matchers below implement exactly that. -/

/-- Match a literal, returning the remaining suffix. -/
def matchLit (lit s : PyStr) : Option PyStr :=
  if lit.isPrefixOf s then some (s.drop lit.length) else none

/-- Skip `\s*` (maximal whitespace run). -/
def skipWs (s : PyStr) : PyStr :=
  s.dropWhile isPyWs

/-- The character class `[a-z, \-]` of the bracket groups. -/
def isCodeChar (c : Char) : Bool :=
  ('a' ≤ c && c ≤ 'z') || c = ',' || c = ' ' || c = '-'

/-- `type\s*:\s*ignore`, returning the remaining suffix. -/
def tiCore (s : PyStr) : Option PyStr :=
  (matchLit "type".data s).bind fun s1 =>
    (matchLit ":".data (skipWs s1)).bind fun s2 =>
      matchLit "ignore".data (skipWs s2)

/-- `\[[a-z, \-]+\]`: the bracket group; returns `(content, rest)`. -/
def bracketGroup (s : PyStr) : Option (PyStr × PyStr) :=
  match s with
  | '[' :: r =>
      let run := r.takeWhile isCodeChar
      if run.isEmpty then none
      else
        match r.drop run.length with
        | ']' :: r2 => some (run, r2)
        | _ => none
  | _ => none

/-- Anchored match of `P1` at the start of `s`: `(match length, group)`. -/
def ti1MatchAt (s : PyStr) : Option (Nat × Option PyStr) :=
  (tiCore s).map fun rest =>
    match bracketGroup rest with
    | some (g, rest2) => (s.length - rest2.length, some g)
    | none => (s.length - rest.length, none)

/-- Anchored match of `P2` at the start of `s`: `(match length, group)`.
The `\s*` after `ignore` is consumed whether or not the group matches. -/
def ti2MatchAt (s : PyStr) : Option (Nat × Option PyStr) :=
  (tiCore s).map fun rest =>
    let rest1 := skipWs rest
    match bracketGroup rest1 with
    | some (g, rest2) => (s.length - rest2.length, some g)
    | none => (s.length - rest1.length, none)

/-- Anchored match of `P3` at the start of `s`: the match length. -/
def ti3MatchAt (s : PyStr) : Option Nat :=
  (tiCore s).map fun rest =>
    let rest1 := skipWs rest
    match matchLit "[]".data rest1 with
    | some rest2 => s.length - rest2.length
    | none => s.length - rest1.length

/-- `re.search` for `P1`: leftmost match as `(index, length, group)`. -/
def tiSearch1 : PyStr → Option (Nat × Nat × Option PyStr)
  | [] =>
      match ti1MatchAt [] with
      | some (len, g) => some (0, len, g)
      | none => none
  | c :: t =>
      match ti1MatchAt (c :: t) with
      | some (len, g) => some (0, len, g)
      | none => (tiSearch1 t).map fun (i, l, g) => (i + 1, l, g)

/-- `re.sub(P1, repl, s)` with a fixed replacement string: replace all
non-overlapping matches, scanning left to right with a skip counter for the
remainder of a replaced occurrence. -/
def tiSubGo (repl : PyStr) (skip : Nat) : PyStr → PyStr
  | [] => []
  | c :: t =>
      match skip with
      | k + 1 => tiSubGo repl k t
      | 0 =>
          match ti1MatchAt (c :: t) with
          | some (len, _) => repl ++ tiSubGo repl (len - 1) t
          | none => c :: tiSubGo repl 0 t

def tiSub1 (repl : PyStr) (s : PyStr) : PyStr :=
  tiSubGo repl 0 s

/-- Worker for `tiSub3`, with the same skip-counter scheme as `tiSubGo`. -/
def tiSub3Go (skip : Nat) : PyStr → PyStr
  | [] => []
  | c :: t =>
      match skip with
      | k + 1 => tiSub3Go k t
      | 0 =>
          match ti3MatchAt (c :: t) with
          | some len => tiSub3Go (len - 1) t
          | none => c :: tiSub3Go 0 t

/-- `re.sub(P3, "", s)`: delete all non-overlapping `P3` matches. -/
def tiSub3 (s : PyStr) : PyStr :=
  tiSub3Go 0 s

/-- Worker for `tiFindall2`, with the same skip-counter scheme as
`tiSubGo`. -/
def tiFindall2Go (skip : Nat) : PyStr → List PyStr
  | [] => []
  | c :: t =>
      match skip with
      | k + 1 => tiFindall2Go k t
      | 0 =>
          match ti2MatchAt (c :: t) with
          | some (len, g) => g.getD [] :: tiFindall2Go (len - 1) t
          | none => tiFindall2Go 0 t

/-- `re.findall(P2, s)`: the group value of every non-overlapping match,
`""` standing in for an absent group (CPython `findall` semantics). -/
def tiFindall2 (s : PyStr) : List PyStr :=
  tiFindall2Go 0 s

/-- `re.search(r"[^#\s]", s)` truthiness: does `s` contain a character that
is neither `#` nor whitespace? -/
def hasNonHashNonWs (s : PyStr) : Bool :=
  s.any fun c => !(c = '#' || isPyWs c)

/-- `sorted(strings)`: Python's stable sort under the code-point
lexicographic order (insertion sort is stable and agrees with timsort on the
resulting list). -/
def pySortStrs (l : List PyStr) : List PyStr :=
  List.insertionSort (fun a b => pyStrLe a b = true) l

/-! ## `editing.py` -/

/-- `editing.add_type_ignore_comment(comment, error_codes)`:

* if the comment already holds a `type: ignore` clause, merge its codes into
  `error_codes` (skipping ones already present), strip every `P1` occurrence
  from the comment, and drop the remainder entirely when nothing but `#` and
  whitespace is left, else re-format it as `" # " + remainder.lstrip("# ")`;
* a nonempty comment without a clause is re-formatted the same way;
* finally emit `"# type: ignore[" + ", ".join(sorted(error_codes)) + "]"`
  followed by the re-formatted remainder. -/
def add_type_ignore_comment (comment : PyStr) (error_codes : List PyStr) :
    PyStr :=
  let (error_codes, comment) :=
    match tiSearch1 comment with
    | some (_, _, g) =>
        let error_codes :=
          match g with
          | some codes =>
              let old := pySet (pySplitChar ',' (pyReplace codes " ".data []))
              error_codes ++ old.filter (fun e => !(decide (e ∈ error_codes)))
          | none => error_codes
        let comment := tiSub1 [] comment
        let comment :=
          if !hasNonHashNonWs comment then []
          else " # ".data ++ pyLstripP (charIn "# ".data) comment
        (error_codes, comment)
    | none =>
        let comment :=
          if comment.isEmpty then []
          else " # ".data ++ pyLstripP (charIn "# ".data) comment
        (error_codes, comment)
  "# type: ignore[".data ++ pyJoin ", ".data (pySortStrs error_codes) ++
    "]".data ++ comment

/-- Worker for `format_type_ignore_comment`.  The recursive branch replaces a
nonempty substring of `comment` by the empty string, so every recursion
strictly shrinks the comment; `fuel = comment.length + 1` therefore always
suffices and the `fuel = 0` case is unreachable. -/
def formatGo (fuel : Nat) (comment : PyStr) : PyStr :=
  match fuel with
  | 0 => comment
  | fuel + 1 =>
      match tiSearch1 comment with
      | some (_, _, some codes) =>
          let pruned :=
            ((pySplitChar ',' codes).map pyStrip).filter (fun c => !c.isEmpty)
          let formatted := pyReplace comment codes (pyJoin ", ".data pruned)
          if !pruned.isEmpty then formatted
          else formatGo fuel formatted
      | _ =>
          let formatted := tiSub3 comment
          if !hasNonHashNonWs formatted then [] else formatted

/-- `editing.format_type_ignore_comment(comment)`: prune empty/blank entries
from the clause's code list; if no entry survives (or there is no code
list), delete the `type: ignore` / `type: ignore[]` text, and return `""`
when only `#` and whitespace remain. -/
def format_type_ignore_comment (comment : PyStr) : PyStr :=
  formatGo (comment.length + 1) comment

/-- `editing.remove_unused_type_ignore_comments(comment, codes_to_remove)`:
with a wildcard, delete every `P1` occurrence; otherwise read the existing
clause (`match.group` — raising `AttributeError` when there is no match),
delete each code to remove from it by substring replacement, and substitute
`"type: ignore[" + new_codes + "]"` for every `P1` occurrence. -/
def remove_unused_type_ignore_comments (comment : PyStr)
    (codes_to_remove : List PyStr) : Except PyExc PyStr :=
  if decide ("*".data ∈ codes_to_remove) then
    .ok (tiSub1 [] comment)
  else
    match tiSearch1 comment with
    | none => .error .attributeError
    | some (_, _, g) =>
        let old := g.getD []
        let newCodes :=
          codes_to_remove.foldl (fun acc code => pyReplace acc code []) old
        .ok (tiSub1 ("type: ignore[".data ++ newCodes ++ "]".data) comment)

/-! ## `parsing.string_to_error_codes` -/

/-- `parsing.string_to_error_codes(string=…)`: `findall` all `P2` groups; if
any match exists take the lexicographic maximum group string; if it is
nonempty, split on `","`, strip each entry and deduplicate (a Python set —
order-insensitive downstream, represented in first-occurrence order). -/
def string_to_error_codes (string : PyStr) : List PyStr :=
  match tiFindall2 string with
  | [] => []
  | m :: ms =>
      let error_codes := pyStrMax ms m
      if error_codes.isEmpty then []
      else pySet ((pySplitChar ',' error_codes).map pyStrip)

/-- The code entries of the suppression clause of a comment: the first `P1`
group, split on `","`, each entry whitespace-stripped (no deduplication).
This is the observable "codes inside the bracket pair" of a synthesized
comment. -/
def clauseCodesOf (s : PyStr) : List PyStr :=
  match tiSearch1 s with
  | some (_, _, some g) => (pySplitChar ',' g).map pyStrip
  | _ => []

/-! ## Line decomposition and reassembly (`utils.py` / `silence.py`) -/

/-- `utils.CommentSplitLine` (imported by `silence.py`): a physical line split
into its code part and its trailing comment part. -/
structure CommentSplitLine where
  code : PyStr
  comment : PyStr
deriving DecidableEq, Repr

/-- `utils.split_code_and_comment(line)` (the single-line splitter of the
`utils.py` revision in `src`):

```
try:
    comment_tokens = [t for t in tokenize.generate_tokens(reader)
                      if t.type == tokenize.COMMENT]
    if not comment_tokens: return line.rstrip(), ""
    comment_token = comment_tokens[0]
    python_code = line[0:comment_token.start[1]]
    python_comment = line[comment_token.start[1]:]
except tokenize.TokenError:  # compromise for multi-line statements
    comment_start = line.find("#")
    ...
return python_code.rstrip(), python_comment
```

Tokenizing the single line is the external collaborator; its outcome is the
explicit argument `toks` (`Except.error ()` = `tokenize.TokenError`). -/
def split_code_and_comment (line : PyStr) (toks : Except Unit (List Token)) :
    PyStr × PyStr :=
  match toks with
  | .ok ts =>
      match (ts.filter (fun t => t.exact_type = TokKind.COMMENT)).head? with
      | none => (pyRstrip line, [])
      | some t =>
          (pyRstrip (line.take t.start.2.toNat), line.drop t.start.2.toNat)
  | .error _ =>
      match line.findIdx? (fun c => c = '#') with
      | some i => (pyRstrip (line.take i), line.drop i)
      | none => (pyRstrip line, [])

/-- `silence._writelines(file=…, lines=…)`: per-line reassembly.  For a line
with both code and comment: keep them glued when the code already ends in a
space and the comment is not a suppression comment, otherwise re-normalise to
`code.rstrip() + "  " + comment`; lines are joined with `"\n"`. -/
def _writelines (lines : List CommentSplitLine) : PyStr :=
  pyJoin "\n".data <|
    lines.map fun line =>
      if !line.code.isEmpty && !line.comment.isEmpty then
        if pyEndsWith line.code [' '] &&
            !pyStartsWith line.comment "# type: ignore".data then
          line.code ++ line.comment
        else
          pyRstrip line.code ++ "  ".data ++ line.comment
      else if !line.code.isEmpty then
        line.code
      else
        line.comment

/-! ## The older `utils.py` revision: `find_safe_end_line` /
`correct_line_numbers`

These functions construct records positionally with
`MypyError(error.filename, error.col_offset, end_line, error.message,
error.error_code)` while `parsing.MypyError` declares the field order
`(filename, line_no, col_offset, message, error_code)` — so the constructed
record receives `line_no := col_offset` and `col_offset := end_line`.
Because CPython named tuples are untyped, `line_no` can in this way also
receive `None`; the record type used by this revision therefore carries
`Option Int` in both slots. -/

namespace OldUtils

/-- The `MypyError` tuple as used by the old `utils.py` call sites (both
position slots dynamically hold `int` or `None`). -/
structure UMypyError where
  filename : PyStr
  line_no : Option Int
  col_offset : Option Int
  message : PyStr
  error_code : PyStr
deriving DecidableEq, Repr

/-- `utils.UnsilenceableRegion`: `start`/`end` are `(line, column)` pairs. -/
structure URegion where
  start : Int × Int
  end_ : Int × Int
deriving DecidableEq, Repr

/-- Python `==` between an `int`-or-`None` value and an `int`
(`None == n` is `False`). -/
def optEqInt (o : Option Int) (n : Int) : Bool :=
  match o with
  | none => false
  | some x => x = n

/-- Python tuple `≤` on `(int, int)` pairs (lexicographic). -/
def tupLe (a b : Int × Int) : Bool :=
  a.1 < b.1 || (a.1 = b.1 && a.2 ≤ b.2)

/-- `utils.find_unsilenceable_regions(stream)`, lifted over the token stream
produced by the external tokenizer: multi-line `STRING` tokens contribute
`(start, end)`; tokens on explicitly continued comment-free lines contribute
`((end_line, 0), (end_line, -1))`.  The source appends string regions in one
loop and continuation regions in a second loop over the same token list. -/
def find_unsilenceable_regions (tokens : List Token) : List URegion :=
  let strings := tokens.foldl
    (fun acc t =>
      if t.start.1 ≠ t.end_.1 && t.exact_type = TokKind.STRING then
        acc ++ [⟨t.start, t.end_⟩]
      else acc) []
  let comments := tokens.filter (fun t => t.exact_type = TokKind.COMMENT)
  tokens.foldl
    (fun acc t =>
      if pyEndsWith (pyRstripP (fun c => c = '\r' || c = '\n') t.line) ['\\']
          && !(comments.any (fun c => c.line = t.line)) then
        acc ++ [⟨(t.end_.1, 0), (t.end_.1, -1)⟩]
      else acc)
    strings

/-- One pass of the `for region in unsilenceable_regions` loop of
`utils.find_safe_end_line`.  Result:
`.ok none` = the loop hit `return -1`;
`.ok (some st)` = loop completed with the final `(new_line, new_col_offset)`
state; `.error` = a raised `TypeError` (ordering `None` against an `int`).
`math.isfinite(region.end[1])` is `True` for every `int`, hence omitted. -/
def findSafeLoop (e : UMypyError) (st : Option (Int × Int)) :
    List URegion → Except PyExc (Option (Option (Int × Int)))
  | [] => .ok (some st)
  | r :: rest =>
      if optEqInt e.line_no r.end_.1 && decide (r.start.1 ≠ r.end_.1) then
        findSafeLoop e st rest
      else if e.col_offset.isNone then
        match e.line_no with
        | none => .error .typeError
        | some ln =>
            if decide (r.start.1 ≤ ln) && decide (ln ≤ r.end_.1) then
              .ok none
            else if optEqInt e.line_no r.start.1 &&
                decide (r.start.1 ≠ r.end_.1) then
              findSafeLoop e (some (r.end_.1, r.end_.2)) rest
            else
              findSafeLoop e st rest
      else
        match e.line_no, e.col_offset with
        | none, _ => .error .typeError
        | some ln, some col =>
            if tupLe r.start (ln, col) && tupLe (ln, col) r.end_ then
              .ok none
            else if optEqInt e.line_no r.start.1 &&
                decide (r.start.1 ≠ r.end_.1) then
              findSafeLoop e (some (r.end_.1, r.end_.2)) rest
            else
              findSafeLoop e st rest
        | some _, none => .error .typeError

/-- `utils.find_safe_end_line(error, unsilenceable_regions)`.

Returns the Python value of the call: `-1`, `error.line_no` (an `int` or —
through the positional-construction slip below — `None`), or the result of
the recursive call on
`MypyError(error.filename, new_col_offset, new_line, …)`, i.e. on a record
with `line_no := new_col_offset` and `col_offset := new_line`.  The
recursion is not structurally bounded; `fuel` models CPython's recursion
limit (exhaustion = `RecursionError`). -/
def find_safe_end_line (fuel : Nat) (error : UMypyError)
    (regions : List URegion) : Except PyExc (Option Int) :=
  match fuel with
  | 0 => .error .recursionError
  | fuel + 1 =>
      match findSafeLoop error none regions with
      | .error e => .error e
      | .ok none => .ok (some (-1))
      | .ok (some none) => .ok error.line_no
      | .ok (some (some (newLine, newCol))) =>
          find_safe_end_line fuel
            ⟨error.filename, some newCol, some newLine,
              error.message, error.error_code⟩ regions

/-- `utils.correct_line_numbers(stream, errors)` with the stream's token
stream passed explicitly.  For each error: compute the safe end line; if it
is `-1` the error is appended verbatim to the excluded list, otherwise
`MypyError(error.filename, error.col_offset, end_line, error.message,
error.error_code)` is appended to the corrected list — which, under the
declared field order of `parsing.MypyError`, stores `error.col_offset` into
`line_no` and `end_line` into `col_offset`.

`correctGo` is the `for error in errors` loop, with the two output
accumulators kept in reverse. -/
def correctGo (regions : List URegion) :
    List UMypyError → List UMypyError → List UMypyError →
      Except PyExc (List UMypyError × List UMypyError)
  | [], corrected, excluded => .ok (corrected.reverse, excluded.reverse)
  | e :: rest, corrected, excluded =>
      match find_safe_end_line 1000 e regions with
      | .error exc => .error exc
      | .ok endLine =>
          if optEqInt endLine (-1) then
            correctGo regions rest corrected (e :: excluded)
          else
            correctGo regions rest
              (⟨e.filename, e.col_offset, endLine, e.message, e.error_code⟩
                :: corrected)
              excluded

def correct_line_numbers (tokens : List Token) (errors : List UMypyError) :
    Except PyExc (List UMypyError × List UMypyError) :=
  correctGo (find_unsilenceable_regions tokens) errors [] []

end OldUtils

/-! ## `parsing.parse_mypy_report`

The report-line pattern is

```
^(?P<filename>[^:]+):(?P<line_no>\d+)(:(?P<col_offset>\d+))?
(:\d+:\d+)?: error: (?P<message>.+)\s+(\[(?P<error_code>.+)\])?
```

applied with `re.match` to `line.strip()`.  `parse_line` below is the
deterministic decomposition of this pattern under CPython backtracking:

* `[^:]+` cannot cross a `:` and every shorter candidate leaves a non-`:`
  character where `:` is required, so `filename` is exactly the (nonempty)
  prefix before the first `:`;
* every alternative following `(?P<line_no>\d+)` starts with `:`, so the
  digit run is maximal and must be followed by `:`;
* the optional `(:{col})?` and `(:\d+:\d+)?` groups and the literal
  `: error: ` all demand distinct characters one position after the `:`
  (digit vs. digit vs. space), so at most one way through the options
  reaches the literal; the group-present alternative is attempted first,
  which is modelled by trying the column branch first;
* in `(?P<message>.+)\s+(\[(?P<error_code>.+)\])?` (with no end anchor),
  `.+` is greedy and the optional bracket group can always match empty, so
  the first viable split takes `message` to be everything before the *last*
  whitespace character (which must exist at index ≥ 1, else the whole
  pattern fails); `\s+` then takes exactly that character, and the bracket
  group matches iff the remainder starts with `[` and contains a later `]`
  with at least one character in between — `.+` inside the group being
  greedy, the *last* `]` of the remainder closes the group.  Any text after
  that `]` is ignored (no anchor). -/

/-- Decimal digit run → `Int` (Python `int()`). -/
def digitsToInt (ds : PyStr) : Int :=
  (ds.foldl (fun n c => n * 10 + (c.toNat - '0'.toNat)) 0 : Nat)

/-- The `(:\d+:\d+)?: error: ` part: consume the optional end-position group
(maximal digit runs) and the literal `: error: `, returning the remainder. -/
def matchG5Literal (r : PyStr) : Option PyStr :=
  let lit := ": error: ".data
  match r with
  | ':' :: r1 =>
      let d1 := r1.takeWhile Char.isDigit
      if !d1.isEmpty then
        match r1.drop d1.length with
        | ':' :: r2 =>
            let d2 := r2.takeWhile Char.isDigit
            if !d2.isEmpty then matchLit lit (r2.drop d2.length)
            else matchLit lit r
        | _ => matchLit lit r
      else matchLit lit r
  | _ => none

/-- The `(?P<message>.+)\s+(\[(?P<error_code>.+)\])?` tail: returns the raw
message group and the code group (`none` when the bracket group is absent). -/
def matchMsgTail (m : PyStr) : Option (PyStr × Option PyStr) :=
  match (m.reverse).findIdx? isPyWs with
  | none => none
  | some k =>
      let l := m.length - 1 - k
      if l = 0 then none
      else
        let msg := m.take l
        let afterWs := m.drop (l + 1)
        match afterWs with
        | '[' :: r =>
            match (r.reverse).findIdx? (fun c => c = ']') with
            | none => some (msg, none)
            | some k2 =>
                let j := r.length - 1 - k2
                if j = 0 then some (msg, none)
                else some (msg, some (r.take j))
        | _ => some (msg, none)

/-- One report line → at most one `MypyError` (the body of the
`for line in report` loop of `parsing.parse_mypy_report`). -/
def parse_line (raw : PyStr) : Option MypyError :=
  let s := pyStrip raw
  let fn := s.takeWhile (fun c => c ≠ ':')
  if fn.isEmpty then none
  else
    match s.drop fn.length with
    | ':' :: r0 =>
        let digits := r0.takeWhile Char.isDigit
        if digits.isEmpty then none
        else
          let r1 := r0.drop digits.length
          let colBranch : Option (Option Int × PyStr) :=
            match r1 with
            | ':' :: r2 =>
                let colDigits := r2.takeWhile Char.isDigit
                if colDigits.isEmpty then none
                else
                  (matchG5Literal (r2.drop colDigits.length)).map
                    fun rest => (some (digitsToInt colDigits), rest)
            | _ => none
          let branch :=
            match colBranch with
            | some v => some v
            | none => (matchG5Literal r1).map fun rest => ((none : Option Int), rest)
          match branch with
          | none => none
          | some (col, rest) =>
              (matchMsgTail rest).map fun (msg, code) =>
                { filename := fn
                  line_no := digitsToInt digits
                  col_offset := col
                  message := pyStrip msg
                  error_code := code.getD [] }
    | _ => none

/-- Sort key of `parse_mypy_report`: the pair `(filename, line_no)` under
Python tuple `≤`. -/
def errorKeyLe (a b : MypyError) : Bool :=
  pyStrLt a.filename b.filename ||
    (a.filename = b.filename && a.line_no ≤ b.line_no)

/-- `parsing.parse_mypy_report(report=…)`: parse each line (non-matching
lines are skipped) and stable-sort by `(filename, line_no)`. -/
def parse_mypy_report (report : PyStr) : List MypyError :=
  List.insertionSort (fun a b => errorKeyLe a b = true)
    ((pySplitlines report).filterMap parse_line)

/-! ## `filter.filter_by_source` / `filter.filter_by_code` -/

/-- `filter.filter_by_source(errors=…, packages=…, modules=…, files=…)`:
with no criteria at all, return `errors` unchanged; otherwise keep the
errors whose file resolves to or under one of the named packages, modules,
or paths.  Name/path resolution (`importlib.util.find_spec`,
`pathlib.Path.resolve`) is the external ModuleResolver collaborator
(spec §4.2/§9) and enters as the predicate `included`. -/
def filter_by_source (included : MypyError → Bool)
    (packages modules files : List PyStr) (errors : List MypyError) :
    List MypyError :=
  if (packages ++ modules ++ files).isEmpty then errors
  else errors.filter included

/-- Modelled from the spec: `filter_by_code` is imported by `silence.py` but
absent from the `filter.py` in `src`.  Spec §4.2: with an allow-list
present, keep exactly the diagnostics whose code is in the list; with no
allow-list, keep everything. -/
def filter_by_code (errors : List MypyError)
    (codes_to_silence : Option (List PyStr)) : List MypyError :=
  match codes_to_silence with
  | none => errors
  | some codes => errors.filter (fun e => decide (e.error_code ∈ codes))

/-! ## `silence.py` -/

/-- `silence._extract_error_details(errors=…)`: returns
`(codes_to_add, descriptions_to_add, codes_to_remove)`.
`codes_in_message` is `string_to_error_codes(error.message) or ("*",)`. -/
def _extract_error_details (errors : List MypyError) :
    List PyStr × List PyStr × List PyStr :=
  errors.foldl
    (fun acc error =>
      let toAdd := acc.1
      let descs := acc.2.1
      let toRemove := acc.2.2
      let codesInMessage :=
        let c := string_to_error_codes error.message
        if c.isEmpty then ["*".data] else c
      if error.error_code = "unused-ignore".data ||
          (error.error_code = "ignore-without-code".data &&
            decide ("*".data ∈ codesInMessage)) then
        (toAdd, descs, toRemove ++ codesInMessage)
      else if error.error_code = "ignore-without-code".data then
        (toAdd ++ codesInMessage,
          descs ++ codesInMessage.map (fun _ => "No message".data), toRemove)
      else
        (toAdd ++ [error.error_code], descs ++ [error.message], toRemove))
    ([], [], [])

/-- `silence.create_suppression_comment(comment=…, errors=…,
description_style=…, fix_me=…)`: remove the codes-to-remove, normalise the
clause, then (when there are codes to add) synthesise the new suppression
comment and append the optional fix-me marker and the comma-joined
descriptions (`description_style == "full"`). -/
def create_suppression_comment (comment : PyStr) (errors : List MypyError)
    (description_style : PyStr) (fix_me : PyStr) : Except PyExc PyStr :=
  let details := _extract_error_details errors
  let toAdd := details.1
  let descriptions := details.2.1
  let toRemove := details.2.2
  (remove_unused_type_ignore_comments comment toRemove).map fun pruned =>
    let formatted := format_type_ignore_comment pruned
    if !toAdd.isEmpty then
      let sup := add_type_ignore_comment formatted toAdd
      let sup := if !fix_me.isEmpty then sup ++ " # ".data ++ fix_me else sup
      if description_style = "full".data && !descriptions.isEmpty then
        sup ++ " # ".data ++ pyJoin ", ".data descriptions
      else sup
    else formatted

/-- Modelled from the spec: `utils.split_into_code_and_comment(source,
tokens)` and its `CommentSplitLine` result are imported by `silence.py` but
absent from the `utils.py` in `src`.  Spec §3 (LineView): a derived,
reconstructable per-physical-line `{code, comment}` decomposition whose
reassembly must reproduce byte-identical output for untouched lines — the
comment of line `i` is the text of the tokenizer's COMMENT token starting on
that line (the last one assigned wins) and the code is the raw line with
that comment suffix removed. -/
def split_into_code_and_comment (source : PyStr) (tokens : List Token) :
    List CommentSplitLine :=
  (pySplitlines source).enum.map fun p =>
    let i := p.1
    let line := p.2
    let comment :=
      match (tokens.filter fun t =>
          t.exact_type = TokKind.COMMENT && t.start.1 = (i + 1 : Int)).getLast? with
      | some t => t.string
      | none => []
    ⟨line.take (line.length - comment.length), comment⟩

/-- A tokenizer outcome: the token stream, or a `tokenize.TokenError`. -/
abbrev Tokenizer := PyStr → Except Unit (List Token)

/-- `silence.silence_errors_in_file(file=…, errors=…, description_style=…,
fix_me=…, dry_run=…)` with the file contents and the tokenizer explicit:
tokenize, split into `CommentSplitLine`s, keep the silenceable errors,
group them by line, rewrite each grouped line's comment through
`create_suppression_comment`, and return the reassembled content together
with the silenced errors.  (Python list subscripts `lines[line_number - 1]`
wrap negative indices and raise `IndexError` out of range; the write —
skipped under `dry_run` — is performed by the caller in this model.) -/
def silence_errors_in_file (tokenizer : Tokenizer) (content : PyStr)
    (errors : List MypyError) (description_style fix_me : PyStr) :
    Except PyExc (PyStr × List MypyError) :=
  match tokenizer content with
  | .error _ => .error PyExc.tokenError
  | .ok tokens =>
      let lines := split_into_code_and_comment content tokens
      let safe :=
        filter_by_silenceability errors (lines.map (·.comment)) tokens
      let groups := pyGroupBy (fun a b => a.line_no = b.line_no) safe
      (groups.foldlM
        (fun (ls : List CommentSplitLine) (grp : List MypyError) => do
          let lineNumber := (grp.headD ⟨[], 0, none, [], []⟩).line_no
          let i : Int := lineNumber - 1
          match pyGetIdx ls i with
          | none => Except.error PyExc.indexError
          | some cur => do
              let newComment ←
                create_suppression_comment cur.comment grp
                  description_style fix_me
              match pySetIdx ls i ⟨cur.code, newComment⟩ with
              | none => Except.error PyExc.indexError
              | some ls' => Except.ok ls')
        lines).map
        fun finalLines => (_writelines finalLines, safe)

/-- `silence.MypyUpgradeResult`. -/
structure MypyUpgradeResult where
  silenced : List MypyError
  failures : List MypyError
  ignored : List MypyError
deriving DecidableEq, Repr

/-- The file system, as an association list `filename ↦ contents`. -/
abbrev FS := List (PyStr × PyStr)

/-- Open a file for reading (`none` = `FileNotFoundError`). -/
def fsRead (fs : FS) (name : PyStr) : Option PyStr :=
  match fs.find? (fun p => p.1 = name) with
  | some p => some p.2
  | none => none

/-- Write a file in place. -/
def fsWrite (fs : FS) (name content : PyStr) : FS :=
  match fs with
  | [] => [(name, content)]
  | (n, c) :: rest =>
      if n = name then (n, content) :: rest
      else (n, c) :: fsWrite rest name content

/-- `silence.TRY_SHOW_ABSOLUTE_PATH.format(filename)`. -/
def TRY_SHOW_ABSOLUTE_PATH (filename : PyStr) : PyStr :=
  "Unable to find file ".data ++ filename ++
    (". This may be due to running mypy in a different directory than " ++
      "mypy-upgrade. Please try running mypy with the --show-absolute-path " ++
      "flag set.").data

/-- `f"Unable to tokenize file: {filename}"`. -/
def UNABLE_TO_TOKENIZE (filename : PyStr) : PyStr :=
  "Unable to tokenize file: ".data ++ filename

/-- The `for filename, filename_grouped_errors in groupby(...)` loop of
`silence.silence_errors_in_report`: one file group at a time, catching
`FileNotFoundError` (a `logger.warning(TRY_SHOW_ABSOLUTE_PATH…)` message and
on to the next file) and `tokenize.TokenError` (ditto with the tokenize
message); any other exception propagates.  The accumulated warnings are the
explicit `messages` state; the file system is threaded, and a successful
file rewrite is persisted unless `dry_run` is set. -/
def reportGo (tokenizer : Tokenizer) (description_style fix_me : PyStr)
    (dry_run : Bool) :
    List (List MypyError) → List MypyError → List PyStr → FS →
      Except PyExc (List MypyError × List PyStr × FS)
  | [], silenced, messages, fs => .ok (silenced, messages, fs)
  | grp :: rest, silenced, messages, fs =>
      let filename := (grp.headD ⟨[], 0, none, [], []⟩).filename
      match fsRead fs filename with
      | none =>
          reportGo tokenizer description_style fix_me dry_run rest silenced
            (messages ++ [TRY_SHOW_ABSOLUTE_PATH filename]) fs
      | some content =>
          match silence_errors_in_file tokenizer content grp
              description_style fix_me with
          | .error PyExc.tokenError =>
              reportGo tokenizer description_style fix_me dry_run rest silenced
                (messages ++ [UNABLE_TO_TOKENIZE filename]) fs
          | .error e => .error e
          | .ok (newContent, safe) =>
              reportGo tokenizer description_style fix_me dry_run rest
                (silenced ++ safe) messages
                (if dry_run then fs else fsWrite fs filename newContent)

/-- `silence.silence_errors_in_report(report=…, packages=…, modules=…,
files=…, description_style=…, fix_me=…, dry_run=…, codes_to_silence=…)`:
parse the report, filter by source and by code, process the errors grouped
by filename, and assemble the `MypyUpgradeResult`
(`failures = code-filtered errors not silenced`,
`ignored = parsed errors not code-filtered`).  The result is returned
together with the warning messages and the final file system. -/
def silence_errors_in_report (tokenizer : Tokenizer)
    (included : MypyError → Bool) (fs : FS) (report : PyStr)
    (packages modules files : List PyStr) (description_style fix_me : PyStr)
    (dry_run : Bool) (codes_to_silence : Option (List PyStr)) :
    Except PyExc (MypyUpgradeResult × List PyStr × FS) :=
  let errors := parse_mypy_report report
  let source_filtered := filter_by_source included packages modules files errors
  let code_filtered := filter_by_code source_filtered codes_to_silence
  let groups := pyGroupBy (fun a b => a.filename = b.filename) code_filtered
  (reportGo tokenizer description_style fix_me dry_run groups [] [] fs).map
    fun out =>
      ({ silenced := out.1
         failures := code_filtered.filter (fun e => !(decide (e ∈ out.1)))
         ignored := errors.filter (fun e => !(decide (e ∈ code_filtered))) },
        out.2.1, out.2.2)

/-! # Theorems -/

/-- Claim C1 (confirmed).  For every diagnostic whose code is not `"syntax"`
and every list of unsilenceable regions, the safety analysis
(`filter._is_safe_to_silence`) rejects the diagnostic iff some region `R`
satisfies `R.start ≤ D.line ≤ R.end` and not
(`D.line = R.end` with `R.start ≠ R.end`); in particular a diagnostic that
meets every region only on the closing line of a true multi-line region is
accepted, and a diagnostic lying in a region strictly before its end line is
rejected. -/
theorem C1_safety_reject_iff (e : MypyError)
    (regions : List UnsilenceableRegion) (h : e.error_code ≠ "syntax".data) :
    (_is_safe_to_silence e regions = false ↔
      ∃ r ∈ regions, r.start ≤ e.line_no ∧ e.line_no ≤ r.end_ ∧
        ¬(e.line_no = r.end_ ∧ r.start ≠ r.end_)) ∧
    ((∀ r ∈ regions,
        (r.start ≤ e.line_no ∧ e.line_no ≤ r.end_) →
          (e.line_no = r.end_ ∧ r.start ≠ r.end_)) →
      _is_safe_to_silence e regions = true) ∧
    ((∃ r ∈ regions, r.start ≤ e.line_no ∧ e.line_no < r.end_) →
      _is_safe_to_silence e regions = false) := by
  have key : _is_safe_to_silence e regions = false ↔
      ∃ r ∈ regions, r.start ≤ e.line_no ∧ e.line_no ≤ r.end_ ∧
        ¬(e.line_no = r.end_ ∧ r.start ≠ r.end_) := by
    unfold _is_safe_to_silence
    rw [if_neg h]
    constructor
    · intro hall
      rcases List.all_eq_false.mp hall with ⟨r, hr, hpr⟩
      have hpr' : (r.start ≤ e.line_no ∧ e.line_no ≤ r.end_) ∧
          (e.line_no = r.end_ → r.start = r.end_) := by
        simpa [Bool.and_eq_true, decide_eq_true_eq, not_and,
          Decidable.not_not] using hpr
      exact ⟨r, hr, hpr'.1.1, hpr'.1.2, by tauto⟩
    · rintro ⟨r, hr, h1, h2, h3⟩
      by_contra hne
      have hall := eq_true_of_ne_false hne
      have := List.all_eq_true.mp hall r hr
      simp only [Bool.not_eq_true', Bool.and_eq_false_iff,
        decide_eq_false_iff_not, Bool.not_eq_false, Bool.and_eq_true,
        decide_eq_true_eq] at this
      rcases this with (h' | h') | h'
      · exact h' h1
      · exact h' h2
      · exact h3 (by simpa using h')
  refine ⟨key, ?_, ?_⟩
  · intro hyp
    by_contra hne
    have hfalse : _is_safe_to_silence e regions = false := by
      cases hb : _is_safe_to_silence e regions with
      | false => rfl
      | true => exact absurd hb hne
    rcases key.mp hfalse with ⟨r, hr, h1, h2, h3⟩
    exact h3 (hyp r hr ⟨h1, h2⟩)
  · rintro ⟨r, hr, h1, h2⟩
    exact key.mpr ⟨r, hr, h1, le_of_lt h2, by rintro ⟨he, _⟩; omega⟩

/-! ### Order lemmas for the lexicographic string order -/

lemma pyStrLt_irrefl : ∀ a : PyStr, pyStrLt a a = false := by
  intro a
  induction a with
  | nil => simp [pyStrLt]
  | cons x xs ih => simp [pyStrLt, ih]

lemma pyStrLt_trans : ∀ {a b c : PyStr},
    pyStrLt a b = true → pyStrLt b c = true → pyStrLt a c = true := by
  intro a
  induction a with
  | nil =>
      intro b c hab hbc
      cases b with
      | nil => simp [pyStrLt] at hab
      | cons y ys =>
          cases c with
          | nil => simp [pyStrLt] at hbc
          | cons z zs => simp [pyStrLt]
  | cons x xs ih =>
      intro b c hab hbc
      cases b with
      | nil => simp [pyStrLt] at hab
      | cons y ys =>
          cases c with
          | nil => simp [pyStrLt] at hbc
          | cons z zs =>
              simp only [pyStrLt, Bool.or_eq_true, Bool.and_eq_true,
                decide_eq_true_eq] at hab hbc ⊢
              rcases hab with h1 | ⟨h1, h2⟩
              · rcases hbc with g1 | ⟨g1, g2⟩
                · exact Or.inl (lt_trans h1 g1)
                · exact Or.inl (g1 ▸ h1)
              · rcases hbc with g1 | ⟨g1, g2⟩
                · exact Or.inl (by rw [h1]; exact g1)
                · exact Or.inr ⟨h1.trans g1, ih h2 g2⟩

lemma pyStrLt_connex : ∀ {a b : PyStr}, a ≠ b →
    pyStrLt a b = true ∨ pyStrLt b a = true := by
  intro a
  induction a with
  | nil =>
      intro b hne
      cases b with
      | nil => exact absurd rfl hne
      | cons y ys => left; simp [pyStrLt]
  | cons x xs ih =>
      intro b hne
      cases b with
      | nil => right; simp [pyStrLt]
      | cons y ys =>
          rcases lt_trichotomy x y with h | h | h
          · left; simp [pyStrLt, h]
          · subst h
            have hne' : xs ≠ ys := by
              intro he; exact hne (by rw [he])
            rcases ih hne' with h' | h'
            · left; simp [pyStrLt, h']
            · right; simp [pyStrLt, h']
          · right; simp [pyStrLt, h]

lemma pyStrLe_refl (a : PyStr) : pyStrLe a a = true := by
  simp [pyStrLe]

lemma pyStrLe_trans {a b c : PyStr} (h1 : pyStrLe a b = true)
    (h2 : pyStrLe b c = true) : pyStrLe a c = true := by
  simp only [pyStrLe, Bool.or_eq_true, decide_eq_true_eq] at h1 h2 ⊢
  rcases h1 with h1 | h1
  · rcases h2 with h2 | h2
    · exact Or.inl (pyStrLt_trans h1 h2)
    · exact Or.inl (h2 ▸ h1)
  · rcases h2 with h2 | h2
    · exact Or.inl (by rw [h1]; exact h2)
    · exact Or.inr (h1.trans h2)

lemma pyStrLe_total (a b : PyStr) :
    pyStrLe a b = true ∨ pyStrLe b a = true := by
  by_cases h : a = b
  · left; simp [pyStrLe, h]
  · rcases pyStrLt_connex h with h' | h'
    · left; simp [pyStrLe, h']
    · right; simp [pyStrLe, h']

lemma pyStrLe_antisymm {a b : PyStr} (h1 : pyStrLe a b = true)
    (h2 : pyStrLe b a = true) : a = b := by
  simp only [pyStrLe, Bool.or_eq_true, decide_eq_true_eq] at h1 h2
  rcases h1 with h1 | h1
  · rcases h2 with h2 | h2
    · have := pyStrLt_trans h1 h2
      rw [pyStrLt_irrefl] at this
      exact absurd this (by simp)
    · exact h2.symm
  · exact h1

instance : IsTrans PyStr (fun a b => pyStrLe a b = true) :=
  ⟨fun _ _ _ => pyStrLe_trans⟩

instance : IsTotal PyStr (fun a b => pyStrLe a b = true) :=
  ⟨pyStrLe_total⟩

instance : IsAntisymm PyStr (fun a b => pyStrLe a b = true) :=
  ⟨fun _ _ => pyStrLe_antisymm⟩

/-! ### `pySet` (Python `set`) lemmas -/

lemma pySet_nodup : ∀ l : List PyStr, (pySet l).Nodup := by
  intro l
  induction l with
  | nil => simp [pySet]
  | cons x xs ih =>
      simp only [pySet, List.nodup_cons]
      refine ⟨?_, List.Nodup.filter _ ih⟩
      intro hx
      have := List.of_mem_filter hx
      simp at this

lemma mem_pySet {x : PyStr} : ∀ {l : List PyStr}, x ∈ pySet l ↔ x ∈ l := by
  intro l
  induction l with
  | nil => simp [pySet]
  | cons y ys ih =>
      simp only [pySet, List.mem_cons]
      constructor
      · rintro (h | h)
        · exact Or.inl h
        · exact Or.inr (ih.mp (List.mem_of_mem_filter h))
      · rintro (h | h)
        · exact Or.inl h
        · by_cases hxy : x = y
          · exact Or.inl hxy
          · exact Or.inr (List.mem_filter.mpr ⟨ih.mpr h, by simpa using hxy⟩)

/-- A `", "`-join of a list with a nonempty entry is nonempty. -/
lemma pyJoin_ne_nil {l : List PyStr} (h : ∃ x ∈ l, x ≠ []) :
    pyJoin ", ".data l ≠ [] := by
  rcases h with ⟨x, hx, hxne⟩
  cases l with
  | nil => cases hx
  | cons a as =>
      cases as with
      | nil =>
          have : x = a := by simpa using hx
          subst this
          simpa [pyJoin, List.intercalate] using hxne
      | cons b bs =>
          simp only [pyJoin, List.intercalate, List.intersperse]
          intro hcontr
          simp [List.flatten] at hcontr

/-- Sorting with `pySortStrs` preserves duplicate-freeness and membership and
yields a `pyStrLe`-sorted list. -/
lemma pySortStrs_props (ec : List PyStr) (hnodup : ec.Nodup) :
    (pySortStrs ec).Nodup ∧
      List.Sorted (fun a b => pyStrLe a b = true) (pySortStrs ec) ∧
      (∀ c ∈ ec, c ∈ pySortStrs ec) := by
  have hperm := List.perm_insertionSort (fun a b => pyStrLe a b = true) ec
  exact ⟨hperm.nodup_iff.mpr hnodup,
    List.sorted_insertionSort _ ec,
    fun c hc => hperm.mem_iff.mpr hc⟩

/-- The merged code list of `add_type_ignore_comment` — the supplied codes
plus the old clause codes not already supplied — is duplicate-free when the
supplied codes are. -/
lemma merged_codes_nodup (codes : List PyStr) (hnodup : codes.Nodup)
    (old : List PyStr) :
    (codes ++ (pySet old).filter
        (fun e => !(decide (e ∈ codes)))).Nodup := by
  refine List.Nodup.append hnodup (List.Nodup.filter _ (pySet_nodup old)) ?_
  intro a ha haf
  have := List.of_mem_filter haf
  simp only [Bool.not_eq_true', decide_eq_false_iff_not] at this
  exact this ha

/-- Claim C3 (corrected): amended.  Provided every supplied error code is
nonempty and the supplied codes are pairwise distinct,
`editing.add_type_ignore_comment` emits a suppression clause whose bracket
content is the `", "`-join of a duplicate-free, `pyStrLe`-sorted code list
containing every supplied code, and that bracket content is nonempty — so
under these conditions the synthesized comment carries no duplicated code in
its clause and no empty bracket pair.  (The counterexample
`C3_synthesis_counterexample` shows both invariants fail without the
conditions: duplicated supplied codes are kept, and an empty supplied code
yields `# type: ignore[]`.) -/
theorem C3_synthesis_amended (comment : PyStr) (codes : List PyStr)
    (hne : codes ≠ []) (hnodup : codes.Nodup)
    (hnemp : ∀ c ∈ codes, c ≠ []) :
    ∃ finalCodes tail,
      add_type_ignore_comment comment codes =
        "# type: ignore[".data ++ pyJoin ", ".data finalCodes ++ "]".data ++
          tail ∧
      finalCodes.Nodup ∧
      List.Sorted (fun a b => pyStrLe a b = true) finalCodes ∧
      (∀ c ∈ codes, c ∈ finalCodes) ∧
      pyJoin ", ".data finalCodes ≠ [] := by
  obtain ⟨c0, hc0⟩ : ∃ c, c ∈ codes := by
    cases codes with
    | nil => exact absurd rfl hne
    | cons a as => exact ⟨a, by simp⟩
  have main : ∀ ec : List PyStr, ec.Nodup → (∀ c ∈ codes, c ∈ ec) →
      ∀ tl : PyStr,
      ∃ finalCodes tail,
        "# type: ignore[".data ++ pyJoin ", ".data (pySortStrs ec) ++
            "]".data ++ tl =
          "# type: ignore[".data ++ pyJoin ", ".data finalCodes ++
            "]".data ++ tail ∧
        finalCodes.Nodup ∧
        List.Sorted (fun a b => pyStrLe a b = true) finalCodes ∧
        (∀ c ∈ codes, c ∈ finalCodes) ∧
        pyJoin ", ".data finalCodes ≠ [] := by
    intro ec hecnodup hsub tl
    obtain ⟨hnd, hsort, hmem⟩ := pySortStrs_props ec hecnodup
    refine ⟨pySortStrs ec, tl, rfl, hnd, hsort,
      fun c hc => hmem c (hsub c hc), ?_⟩
    exact pyJoin_ne_nil ⟨c0, hmem c0 (hsub c0 hc0), hnemp c0 hc0⟩
  rcases hsearch : tiSearch1 comment with _ | ⟨i, len, g⟩
  · simp only [add_type_ignore_comment, hsearch]
    exact main codes hnodup (fun c hc => hc) _
  · rcases g with _ | gc
    · simp only [add_type_ignore_comment, hsearch]
      exact main codes hnodup (fun c hc => hc) _
    · simp only [add_type_ignore_comment, hsearch]
      refine main _ (merged_codes_nodup codes hnodup _)
        (fun c hc => List.mem_append_left _ hc) _

/-- Witness for `C3_synthesis_amended`: merging the code `arg-type` into the
existing comment `# type: ignore[assignment]` (spec §8, Scenario C). -/
theorem C3_synthesis_amended_witness :
    (["arg-type".data] ≠ ([] : List PyStr)) ∧
    (∃ finalCodes tail,
      add_type_ignore_comment "# type: ignore[assignment]".data
          ["arg-type".data] =
        "# type: ignore[".data ++ pyJoin ", ".data finalCodes ++ "]".data ++
          tail ∧
      finalCodes.Nodup ∧
      List.Sorted (fun a b => pyStrLe a b = true) finalCodes ∧
      (∀ c ∈ ["arg-type".data], c ∈ finalCodes) ∧
      pyJoin ", ".data finalCodes ≠ []) :=
  ⟨by decide,
    C3_synthesis_amended "# type: ignore[assignment]".data ["arg-type".data]
      (by decide) (by decide) (by decide)⟩

/-! ### Round-trip lemmas for line decomposition/reassembly -/

lemma dropWhile_head_false (p : Char → Bool) :
    ∀ (l : List Char) (c : Char) (r : List Char),
      l.dropWhile p = c :: r → p c = false := by
  intro l
  induction l with
  | nil => intro c r h; simp [List.dropWhile] at h
  | cons a as ih =>
      intro c r h
      by_cases hp : p a
      · rw [List.dropWhile_cons_of_pos hp] at h; exact ih c r h
      · rw [List.dropWhile_cons_of_neg hp] at h
        cases h; simpa using hp

/-- A right-stripped string never ends in a space. -/
lemma rstrip_no_trailing_space (x : PyStr) :
    pyEndsWith (pyRstrip x) [' '] = false := by
  show List.isSuffixOf [' '] ((x.reverse.dropWhile isPyWs).reverse) = false
  show List.isPrefixOf [' '] ((x.reverse.dropWhile isPyWs).reverse).reverse
    = false
  rw [List.reverse_reverse]
  cases hd : x.reverse.dropWhile isPyWs with
  | nil => rfl
  | cons c r =>
      have hc := dropWhile_head_false isPyWs x.reverse c r hd
      have hcs : c ≠ ' ' := by
        intro he; subst he; simp [isPyWs] at hc
      simp [List.isPrefixOf]
      intro h
      exact absurd h.symm hcs

/-- The code part produced by `split_code_and_comment` never ends in a
space (every branch right-strips it). -/
lemma split_code_no_trailing_space (line : PyStr)
    (toks : Except Unit (List Token)) :
    pyEndsWith (split_code_and_comment line toks).1 [' '] = false := by
  unfold split_code_and_comment
  cases toks with
  | error e =>
      cases hf : line.findIdx? (fun c => c = '#') with
      | none => simpa [hf] using rstrip_no_trailing_space line
      | some i => simpa [hf] using rstrip_no_trailing_space (line.take i)
  | ok ts =>
      cases hh : (ts.filter (fun t => t.exact_type = TokKind.COMMENT)).head?
        with
      | none => simpa [hh] using rstrip_no_trailing_space line
      | some t =>
          simpa [hh] using
            rstrip_no_trailing_space (line.take t.start.2.toNat)

/-- `_writelines` on a single line. -/
lemma writelines_singleton (l : CommentSplitLine) :
    _writelines [l] =
      (if !l.code.isEmpty && !l.comment.isEmpty then
        if pyEndsWith l.code [' '] &&
            !pyStartsWith l.comment "# type: ignore".data then
          l.code ++ l.comment
        else pyRstrip l.code ++ "  ".data ++ l.comment
      else if !l.code.isEmpty then l.code
      else l.comment) := by
  simp [_writelines, pyJoin, List.intercalate]

/-- Claim C5 (corrected): amended.  The decompose-then-reassemble round trip
(`utils.split_code_and_comment` + `silence._writelines`) reproduces an
untouched line byte-identically provided the line already is in the
writer's normal form: it carries no comment and no trailing whitespace, or
it consists solely of its comment, or its right-stripped code part is
separated from the comment by exactly two spaces.  (Counterexample
`C5_roundtrip_counterexample` shows that other untouched lines are
re-normalised.) -/
theorem C5_roundtrip_amended (line : PyStr) (toks : Except Unit (List Token))
    (h : ((split_code_and_comment line toks).2 = [] ∧
            line = (split_code_and_comment line toks).1) ∨
         ((split_code_and_comment line toks).1 = [] ∧
            line = (split_code_and_comment line toks).2) ∨
         ((split_code_and_comment line toks).1 ≠ [] ∧
            (split_code_and_comment line toks).2 ≠ [] ∧
            line = pyRstrip (split_code_and_comment line toks).1 ++
              "  ".data ++ (split_code_and_comment line toks).2)) :
    _writelines [⟨(split_code_and_comment line toks).1,
      (split_code_and_comment line toks).2⟩] = line := by
  rw [writelines_singleton]
  rcases h with ⟨hcm, hline⟩ | ⟨hcd, hline⟩ | ⟨hcd, hcm, hline⟩
  · by_cases hcd : (split_code_and_comment line toks).1 = []
    · have hl : line = [] := hline.trans hcd
      rw [hcm, hcd, hl]; simp
    · rw [hcm]
      simp [List.isEmpty_eq_true, hcd]
      exact hline.symm
  · rw [hcd]
    simp
    exact hline.symm
  · have hnosp := split_code_no_trailing_space line toks
    simp [List.isEmpty_eq_true, hcd, hcm, hnosp]
    rw [show ("  ".data : PyStr) = ' ' :: ' ' :: [] from rfl] at hline
    simpa using hline.symm

/-- Witness for `C5_roundtrip_amended`: the untouched line
`"x = 1  # c"` (two spaces before the comment, CPython comment token at
column 7) survives the round trip byte-identically. -/
theorem C5_roundtrip_amended_witness :
    ((split_code_and_comment "x = 1  # c".data
        (.ok [⟨.COMMENT, (1, 7), (1, 10), "x = 1  # c".data,
          "# c".data⟩])).1 ≠ [] ∧
      (split_code_and_comment "x = 1  # c".data
        (.ok [⟨.COMMENT, (1, 7), (1, 10), "x = 1  # c".data,
          "# c".data⟩])).2 ≠ [] ∧
      ("x = 1  # c".data : PyStr) =
        pyRstrip (split_code_and_comment "x = 1  # c".data
          (.ok [⟨.COMMENT, (1, 7), (1, 10), "x = 1  # c".data,
            "# c".data⟩])).1 ++ "  ".data ++
          (split_code_and_comment "x = 1  # c".data
            (.ok [⟨.COMMENT, (1, 7), (1, 10), "x = 1  # c".data,
              "# c".data⟩])).2) ∧
      _writelines [⟨(split_code_and_comment "x = 1  # c".data
          (.ok [⟨.COMMENT, (1, 7), (1, 10), "x = 1  # c".data,
            "# c".data⟩])).1,
        (split_code_and_comment "x = 1  # c".data
          (.ok [⟨.COMMENT, (1, 7), (1, 10), "x = 1  # c".data,
            "# c".data⟩])).2⟩] = "x = 1  # c".data :=
  ⟨by refine ⟨by decide, by decide, by decide⟩,
    C5_roundtrip_amended "x = 1  # c".data
      (.ok [⟨.COMMENT, (1, 7), (1, 10), "x = 1  # c".data, "# c".data⟩])
      (Or.inr (Or.inr ⟨by decide, by decide, by decide⟩))⟩

/-! ### Parser fidelity lemmas (C7) -/

lemma matchLit_self_append (a r : PyStr) : matchLit a (a ++ r) = some r := by
  simp [matchLit, List.isPrefixOf_iff_prefix.mpr (List.prefix_append a r),
    List.drop_left]

lemma dropWhile_eq_self_of_head (p : Char → Bool) (s : PyStr)
    (h : ∀ c, s.head? = some c → p c = false) : s.dropWhile p = s := by
  cases s with
  | nil => rfl
  | cons a t => exact List.dropWhile_cons_of_neg (by simp [h a rfl])

lemma pyRstripP_eq_self (p : Char → Bool) (s : PyStr)
    (h : ∀ c, s.getLast? = some c → p c = false) : pyRstripP p s = s := by
  unfold pyRstripP
  rw [dropWhile_eq_self_of_head p s.reverse
    (fun c hc => h c (by rwa [List.head?_reverse] at hc)), List.reverse_reverse]

lemma pyStrip_eq_self (s : PyStr)
    (h1 : ∀ c, s.head? = some c → isPyWs c = false)
    (h2 : ∀ c, s.getLast? = some c → isPyWs c = false) : pyStrip s = s := by
  unfold pyStrip pyLstripP
  rw [dropWhile_eq_self_of_head isPyWs s h1]
  exact pyRstripP_eq_self isPyWs s h2

lemma pyStrip_append_space (msg : PyStr)
    (h1 : ∀ c, msg.head? = some c → isPyWs c = false)
    (h2 : ∀ c, msg.getLast? = some c → isPyWs c = false) :
    pyStrip (msg ++ [' ']) = msg := by
  cases msg with
  | nil => rfl
  | cons a t =>
      unfold pyStrip pyLstripP
      rw [show (a :: t) ++ [' '] = a :: (t ++ [' ']) from rfl,
        List.dropWhile_cons_of_neg (by simp [h1 a rfl])]
      unfold pyRstripP
      rw [show a :: (t ++ [' ']) = (a :: t) ++ [' '] from rfl,
        List.reverse_append]
      rw [show ([' '] : PyStr).reverse ++ (a :: t).reverse =
        ' ' :: (a :: t).reverse by simp]
      rw [List.dropWhile_cons_of_pos (by simp [isPyWs])]
      rw [dropWhile_eq_self_of_head isPyWs (a :: t).reverse
        (fun c hc => h2 c (by rwa [List.head?_reverse] at hc))]
      exact List.reverse_reverse _

/-- The message/code tail of the report-line pattern on
`pre ++ " " ++ "[" ++ r` (`pre` nonempty, `"[" ++ r` whitespace-free): the
message group is `pre` and the bracket group is read off `r`. -/
lemma matchMsgTail_core_bracket (pre r : PyStr) (hpre : pre ≠ [])
    (hws : ∀ c ∈ r, isPyWs c = false) :
    matchMsgTail (pre ++ ' ' :: '[' :: r) =
      (match (r.reverse).findIdx? (fun c => c = ']') with
       | none => some (pre, none)
       | some k2 =>
           if r.length - 1 - k2 = 0 then some (pre, none)
           else some (pre, some (r.take (r.length - 1 - k2)))) := by
  have hpostws : ∀ c ∈ '[' :: r, isPyWs c = false := by
    intro c hc
    rcases List.mem_cons.mp hc with rfl | hc
    · rfl
    · exact hws c hc
  have hfind : ((pre ++ ' ' :: '[' :: r).reverse).findIdx? isPyWs =
      some ('[' :: r).length := by
    rw [show (pre ++ ' ' :: '[' :: r).reverse =
      ('[' :: r).reverse ++ (' ' :: pre.reverse) by simp]
    rw [List.findIdx?_append,
      List.findIdx?_eq_none_iff.mpr
        (fun x hx => hpostws x (List.mem_reverse.mp hx))]
    simp [List.findIdx?_cons, isPyWs]
  have hlen : (pre ++ ' ' :: '[' :: r).length - 1 - ('[' :: r).length =
      pre.length := by
    simp [List.length_append]
  simp only [matchMsgTail, hfind, hlen]
  rw [if_neg (by simpa using hpre)]
  rw [show pre ++ ' ' :: '[' :: r = pre ++ (' ' :: '[' :: r) from rfl,
    List.take_left, List.drop_append 1]
  simp

/-- The message/code tail of the report-line pattern on `p ++ " " ++ w`
where the final word `w` is nonempty, whitespace-free and does not open a
bracket group: the message group is `p` and there is no code group — the
final word is dropped. -/
lemma matchMsgTail_no_code (p w : PyStr) (hp : p ≠ []) (hw : w ≠ [])
    (hwws : ∀ c ∈ w, isPyWs c = false) (hwbr : w.head? ≠ some '[') :
    matchMsgTail (p ++ ' ' :: w) = some (p, none) := by
  have hfind : ((p ++ ' ' :: w).reverse).findIdx? isPyWs =
      some w.length := by
    rw [show (p ++ ' ' :: w).reverse = w.reverse ++ (' ' :: p.reverse) by simp]
    rw [List.findIdx?_append,
      List.findIdx?_eq_none_iff.mpr
        (fun x hx => hwws x (List.mem_reverse.mp hx))]
    simp [List.findIdx?_cons, isPyWs]
  have hlen : (p ++ ' ' :: w).length - 1 - w.length = p.length := by
    simp [List.length_append]
  simp only [matchMsgTail, hfind, hlen]
  rw [if_neg (by simpa using hp)]
  rw [show p ++ ' ' :: w = p ++ (' ' :: w) from rfl,
    List.take_left, List.drop_append 1]
  simp only [List.drop_succ_cons, List.drop_zero]
  cases w with
  | nil => exact absurd rfl hw
  | cons c r =>
      have hc : c ≠ '[' := by simpa using hwbr
      split
      · rename_i heq
        cases heq
        exact absurd rfl hc
      · rfl

/-- `matchMsgTail` on `msg ++ "  [" ++ code ++ "]"`: the raw message group
is `msg ++ " "` and the code group is exactly `code`. -/
lemma matchMsgTail_with_code (msg code : PyStr) (hcode : code ≠ [])
    (hcodews : ∀ c ∈ code, isPyWs c = false) :
    matchMsgTail (msg ++ "  [".data ++ code ++ "]".data) =
      some (msg ++ [' '], some code) := by
  have hshape : msg ++ "  [".data ++ code ++ "]".data =
      (msg ++ [' ']) ++ ' ' :: '[' :: (code ++ [']']) := by simp
  have hws' : ∀ c ∈ code ++ [']'], isPyWs c = false := by
    intro c hc
    rcases List.mem_append.mp hc with hc | hc
    · exact hcodews c hc
    · simp at hc; subst hc; rfl
  rw [hshape, matchMsgTail_core_bracket _ _ (by simp) hws']
  have hrev : ((code ++ [']']).reverse).findIdx? (fun c => c = ']') =
      some 0 := by
    rw [show (code ++ [']']).reverse = ']' :: code.reverse by simp]
    simp [List.findIdx?_cons]
  have hj : (code ++ [']']).length - 1 - 0 = code.length := by simp
  simp only [hrev, hj]
  rw [if_neg (by simpa using hcode), List.take_left]

/-- Decomposition of `parse_line` on a well-shaped report line: for
`path ++ ":" ++ ds ++ [":" ++ col] ++ ": error: " ++ tail` with a nonempty
`path` free of `:` and whitespace, nonempty digit runs, and a nonempty
`tail` not ending in whitespace, the parser strips nothing, reads
`filename = path`, `line_no = int(ds)`, the optional column, and hands
`tail` to the message/code matcher. -/
lemma parse_line_shape (path ds colpart tail : PyStr) (colval : Option Int)
    (hpath : path ≠ [])
    (hpathc : ∀ c ∈ path, c ≠ ':' ∧ isPyWs c = false)
    (hds : ds ≠ []) (hdsd : ∀ c ∈ ds, c.isDigit = true)
    (hcol : (colpart = [] ∧ colval = none) ∨
            (∃ x, colpart = ':' :: x ∧ x ≠ [] ∧ (∀ c ∈ x, c.isDigit = true) ∧
              colval = some (digitsToInt x)))
    (htailne : tail ≠ [])
    (htaillast : ∀ c, tail.getLast? = some c → isPyWs c = false) :
    parse_line (path ++ ':' :: (ds ++ colpart ++ ": error: ".data ++ tail)) =
      (matchMsgTail tail).map (fun mc =>
        { filename := path, line_no := digitsToInt ds, col_offset := colval,
          message := pyStrip mc.1, error_code := mc.2.getD [] }) := by
  set s := path ++ ':' :: (ds ++ colpart ++ ": error: ".data ++ tail) with hs
  obtain ⟨cl, hcl⟩ : ∃ c, tail.getLast? = some c := by
    cases htl : tail.getLast? with
    | none => exact absurd (List.getLast?_eq_none_iff.mp htl) htailne
    | some c => exact ⟨c, rfl⟩
  have hslast : s.getLast? = some cl := by
    rw [hs, show path ++ ':' :: (ds ++ colpart ++ ": error: ".data ++ tail) =
      (path ++ ':' :: (ds ++ colpart ++ ": error: ".data)) ++ tail by simp]
    rw [List.getLast?_append, hcl]
    rfl
  have hshead : ∀ c, s.head? = some c → isPyWs c = false := by
    intro c hc
    rw [hs, List.head?_append_of_ne_nil path hpath] at hc
    exact (hpathc c (List.mem_of_mem_head? hc)).2
  have hstrip : pyStrip s = s :=
    pyStrip_eq_self s hshead
      (fun c hc => by rw [hslast] at hc; cases hc; exact htaillast cl hcl)
  have hfn : s.takeWhile (fun c => decide (c ≠ ':')) = path := by
    rw [hs, List.takeWhile_append_of_pos
      (fun a ha => by simpa using (hpathc a ha).1)]
    simp [List.takeWhile_cons]
  have hdrop : s.drop path.length = ':' :: (ds ++ colpart ++ ": error: ".data ++ tail) := by
    rw [hs]
    exact List.drop_left path _
  have hdigits : (ds ++ colpart ++ ": error: ".data ++ tail).takeWhile Char.isDigit = ds := by
    rw [show ds ++ colpart ++ ": error: ".data ++ tail =
      ds ++ (colpart ++ ": error: ".data ++ tail) by simp]
    rw [List.takeWhile_append_of_pos hdsd]
    rcases hcol with ⟨hcp, _⟩ | ⟨x, hcp, hx, hxd, _⟩
    · subst hcp; simp [List.takeWhile_cons, Char.isDigit]
    · subst hcp; simp [List.takeWhile_cons, Char.isDigit]
  have hdrop2 : (ds ++ colpart ++ ": error: ".data ++ tail).drop ds.length =
      colpart ++ ": error: ".data ++ tail := by
    rw [show ds ++ colpart ++ ": error: ".data ++ tail =
      ds ++ (colpart ++ ": error: ".data ++ tail) by simp]
    exact List.drop_left ds _
  have hg5 : matchG5Literal (": error: ".data ++ tail) = some tail := by
    show matchG5Literal (':' :: (" error: ".data ++ tail)) = some tail
    unfold matchG5Literal
    simp only [List.takeWhile_cons]
    norm_num [Char.isDigit]
    exact matchLit_self_append _ _
  have hpe : path.isEmpty = false := by
    cases path with
    | nil => exact absurd rfl hpath
    | cons a t => rfl
  rcases hcol with ⟨hcp, hcv⟩ | ⟨x, hcp, hx, hxd, hcv⟩
  · subst hcp; subst hcv
    simp only [parse_line, hstrip, hfn, hpe, Bool.false_eq_true, if_false,
      hdrop, hdigits, hdrop2]
    have hde : ds.isEmpty = false := by
      cases ds with
      | nil => exact absurd rfl hds
      | cons a t => rfl
    have hr2 : List.takeWhile Char.isDigit (" error: ".data ++ tail) = [] := by
      rw [show (" error: ".data : PyStr) ++ tail =
        ' ' :: ("error: ".data ++ tail) from rfl]
      rw [List.takeWhile_cons, if_neg (by decide)]
    have hg5' : matchG5Literal ([':',' ','e','r','r','o','r',':',' '] ++ tail) =
        some tail := hg5
    have hr2' : List.takeWhile Char.isDigit
        ([' ','e','r','r','o','r',':',' '] ++ tail) = [] := hr2
    simp only [hde, Bool.false_eq_true, if_false, List.nil_append,
      show ([':', ' ', 'e', 'r', 'r', 'o', 'r', ':', ' '] : PyStr) ++ tail =
        ':' :: ([' ','e','r','r','o','r',':',' '] ++ tail) from rfl,
      hr2', List.isEmpty_nil, if_true]
    have hg5b : matchG5Literal (':' :: ([' ','e','r','r','o','r',':',' '] ++ tail)) =
        some tail := hg5
    rw [hg5b]
    rfl
  · subst hcp; subst hcv
    simp only [parse_line, hstrip, hfn, hpe, Bool.false_eq_true, if_false,
      hdrop, hdigits, hdrop2]
    have hde : ds.isEmpty = false := by
      cases ds with
      | nil => exact absurd rfl hds
      | cons a t => rfl
    have hxe : x.isEmpty = false := by
      cases x with
      | nil => exact absurd rfl hx
      | cons a t => rfl
    have hxtw : List.takeWhile Char.isDigit
        (x ++ ([':',' ','e','r','r','o','r',':',' '] ++ tail)) = x := by
      rw [List.takeWhile_append_of_pos hxd,
        show ([':',' ','e','r','r','o','r',':',' '] : PyStr) ++ tail =
          ':' :: ([' ','e','r','r','o','r',':',' '] ++ tail) from rfl,
        List.takeWhile_cons, if_neg (by decide)]
      simp
    have hxtw2 : List.takeWhile Char.isDigit
        (x ++ ':' :: ' ' :: 'e' :: 'r' :: 'r' :: 'o' :: 'r' :: ':' :: ' ' ::
          tail) = x := hxtw
    have hxdrop : List.drop x.length
        (x ++ ':' :: ' ' :: 'e' :: 'r' :: 'r' :: 'o' :: 'r' :: ':' :: ' ' ::
          tail) = ':' :: ' ' :: 'e' :: 'r' :: 'r' :: 'o' :: 'r' :: ':' ::
          ' ' :: tail := List.drop_left x _
    have hg5c : matchG5Literal (':' :: ' ' :: 'e' :: 'r' :: 'r' :: 'o' ::
        'r' :: ':' :: ' ' :: tail) = some tail := hg5
    simp only [hde, Bool.false_eq_true, if_false, List.cons_append,
      List.append_assoc, List.nil_append, hxtw2, hxe, hxdrop, hg5c]
    rfl

/-- Claim C7 (corrected): amended.  For every report line of the grammar
`<path>:<line>[:<col>]: error: <message>  [<code>]` (nonempty path without
`:` or whitespace; nonempty digit runs; whitespace-free nonempty code), the
parser emits exactly one diagnostic whose filename, line, optional column,
message and code equal the grammar fields — the message is carried in full
when the `[<code>]` suffix is present.  When the suffix is absent, the
parser instead drops the final whitespace-separated word of the message
(second conjunct; and a line whose message holds no whitespace at all is
skipped entirely, cf. the counterexample). -/
theorem C7_parser_amended (path ds colpart : PyStr) (colval : Option Int)
    (hpath : path ≠ [])
    (hpathc : ∀ c ∈ path, c ≠ ':' ∧ isPyWs c = false)
    (hds : ds ≠ []) (hdsd : ∀ c ∈ ds, c.isDigit = true)
    (hcol : (colpart = [] ∧ colval = none) ∨
            (∃ x, colpart = ':' :: x ∧ x ≠ [] ∧ (∀ c ∈ x, c.isDigit = true) ∧
              colval = some (digitsToInt x))) :
    (∀ msg code : PyStr, code ≠ [] →
      (∀ c, msg.head? = some c → isPyWs c = false) →
      (∀ c, msg.getLast? = some c → isPyWs c = false) →
      (∀ c ∈ code, isPyWs c = false) →
      parse_line (path ++ ':' :: (ds ++ colpart ++ ": error: ".data ++
          (msg ++ "  [".data ++ code ++ "]".data))) =
        some ⟨path, digitsToInt ds, colval, msg, code⟩) ∧
    (∀ p w : PyStr, p ≠ [] → w ≠ [] →
      (∀ c ∈ w, isPyWs c = false) → w.head? ≠ some '[' →
      parse_line (path ++ ':' :: (ds ++ colpart ++ ": error: ".data ++
          (p ++ ' ' :: w))) =
        some ⟨path, digitsToInt ds, colval, pyStrip p, []⟩) := by
  constructor
  · intro msg code hcode h1 h2 h3
    have htail_ne : msg ++ "  [".data ++ code ++ "]".data ≠ [] := by simp
    have htail_last : ∀ c,
        (msg ++ "  [".data ++ code ++ "]".data).getLast? = some c →
          isPyWs c = false := by
      intro c hc
      rw [show msg ++ "  [".data ++ code ++ "]".data =
        (msg ++ "  [".data ++ code) ++ [']'] by simp,
        List.getLast?_append] at hc
      have : c = ']' := by
        cases hc
        rfl
      subst this
      rfl
    rw [parse_line_shape path ds colpart _ colval hpath hpathc hds hdsd hcol
      htail_ne htail_last]
    rw [matchMsgTail_with_code msg code hcode h3]
    have hms := pyStrip_append_space msg h1 h2
    simp [hms]
  · intro p w hp hw hwws hwbr
    have htail_ne : p ++ ' ' :: w ≠ [] := by simp
    have htail_last : ∀ c, (p ++ ' ' :: w).getLast? = some c →
        isPyWs c = false := by
      intro c hc
      rw [show p ++ ' ' :: w = (p ++ [' ']) ++ w by simp,
        List.getLast?_append] at hc
      obtain ⟨d, hd⟩ : ∃ d, w.getLast? = some d := by
        cases hwg : w.getLast? with
        | none => exact absurd (List.getLast?_eq_none_iff.mp hwg) hw
        | some d => exact ⟨d, rfl⟩
      rw [hd] at hc
      have hdc : d = c := Option.some.inj hc
      exact hdc ▸ hwws d (List.mem_of_mem_getLast? hd)
    rw [parse_line_shape path ds colpart _ colval hpath hpathc hds hdsd hcol
      htail_ne htail_last]
    rw [matchMsgTail_no_code p w hp hw hwws hwbr]
    rfl

/-- Witness for `C7_parser_amended`: the concrete lines
`"a.py:1: error: m x  [arg-type]"` (code present — full message kept) and
`"a.py:1: error: Some message"` (code absent — final word dropped). -/
theorem C7_parser_amended_witness :
    ("a.py".data ≠ ([] : PyStr)) ∧
    parse_line "a.py:1: error: m x  [arg-type]".data =
      some ⟨"a.py".data, 1, none, "m x".data, "arg-type".data⟩ ∧
    parse_line "a.py:1: error: Some message".data =
      some ⟨"a.py".data, 1, none, "Some".data, []⟩ := by
  have h := C7_parser_amended "a.py".data "1".data [] none (by decide)
    (by decide) (by decide) (by decide) (Or.inl ⟨rfl, rfl⟩)
  refine ⟨by decide, ?_, ?_⟩
  · exact h.1 "m x".data "arg-type".data (by decide) (by decide) (by decide)
      (by decide)
  · exact h.2 "Some".data "message".data (by decide) (by decide) (by decide)
      (by decide)

/-- Claim C6 (code_bug).  `utils.correct_line_numbers` is claimed to return
accepted diagnostics unchanged except for the line number.  On the
diagnostic `(filename="a", line_no=1, col_offset=0, message="m", code="c")`
with no unsilenceable regions (source `"x = 1"`, whose token stream yields
none), the safe end line is the original line 1, so the claim demands the
record back unchanged; the code instead returns
`(filename="a", line_no=0, col_offset=1, …)` — the positional construction
`MypyError(filename, col_offset, end_line, …)` stores the old column into
`line_no` and the corrected line into `col_offset` (the repository's own
tests, e.g. `test_should_not_change_line_number_for_single_line_errors`,
expect `line_no` to carry the corrected line).  The rejected list is empty,
as expected. -/
theorem C6_correct_line_numbers_swaps_fields :
    OldUtils.correct_line_numbers []
        [{ filename := "a".data, line_no := some 1, col_offset := some 0,
           message := "m".data, error_code := "c".data }] =
      .ok ([{ filename := "a".data, line_no := some 0, col_offset := some 1,
              message := "m".data, error_code := "c".data }], []) ∧
    ({ filename := "a".data, line_no := some 0, col_offset := some 1,
       message := "m".data, error_code := "c".data } :
        OldUtils.UMypyError) ≠
      { filename := "a".data, line_no := some 1, col_offset := some 0,
        message := "m".data, error_code := "c".data } :=
  ⟨rfl, by decide⟩

/-- Claim C5 (corrected): counterexample.  The untouched line `"x = 1 # c"`
(one space before the comment), decomposed by
`utils.split_code_and_comment` (CPython tokenizes the comment at column 6)
and reassembled by `silence._writelines`, comes back as `"x = 1  # c"` —
two spaces — so the round trip is not byte-identical on untouched lines. -/
theorem C5_roundtrip_counterexample :
    (let line : PyStr := "x = 1 # c".data
     let toks : Except Unit (List Token) :=
       .ok [⟨.OTHER, (1, 0), (1, 1), line, "x".data⟩,
            ⟨.OTHER, (1, 2), (1, 3), line, "=".data⟩,
            ⟨.OTHER, (1, 4), (1, 5), line, "1".data⟩,
            ⟨.COMMENT, (1, 6), (1, 9), line, "# c".data⟩,
            ⟨.OTHER, (1, 9), (1, 9), line, []⟩]
     let p := split_code_and_comment line toks
     _writelines [⟨p.1, p.2⟩] = "x = 1  # c".data ∧
       _writelines [⟨p.1, p.2⟩] ≠ line) :=
  ⟨rfl, by decide⟩

/-- Claim C3 (corrected): counterexample.  Comment synthesis
(`silence.create_suppression_comment`) can emit a duplicated code — two
diagnostics with the same code `arg-type` on one line produce
`# type: ignore[arg-type, arg-type]` — and can emit the empty bracket pair:
a diagnostic with the empty error code (as `parse_mypy_report` produces for
report lines without a `[code]` suffix) produces `# type: ignore[]`. -/
theorem C3_synthesis_counterexample :
    create_suppression_comment "# type: ignore".data
        [⟨"a".data, 1, none, "m".data, "arg-type".data⟩,
         ⟨"a".data, 1, none, "n".data, "arg-type".data⟩] "none".data [] =
      .ok "# type: ignore[arg-type, arg-type]".data ∧
    ¬(clauseCodesOf "# type: ignore[arg-type, arg-type]".data).Nodup ∧
    create_suppression_comment "# type: ignore".data
        [⟨"a".data, 1, none, "m".data, []⟩] "none".data [] =
      .ok "# type: ignore[]".data :=
  ⟨rfl, by decide, rfl⟩

/-- Claim C7 (corrected): counterexample.  The report line
`"a.py:1: error: Some message"` matches the documented grammar with
`<message> = "Some message"` and no trailing `[<code>]`, but the parser
emits the diagnostic with message `"Some"`: with the trailing bracket group
absent, the greedy `(?P<message>.+)\s+` keeps only the text before the last
whitespace, dropping the final word. -/
theorem C7_parser_counterexample :
    parse_line "a.py:1: error: Some message".data =
      some ⟨"a.py".data, 1, none, "Some".data, []⟩ ∧
    parse_mypy_report "a.py:1: error: Some message".data =
      [⟨"a.py".data, 1, none, "Some".data, []⟩] ∧
    ("Some".data : PyStr) ≠ "Some message".data :=
  ⟨rfl, rfl, by decide⟩

/-- Claim C2 (corrected): counterexample.  A full engine run
(`silence.silence_errors_in_report`) over the file `"a.py"` containing
`"x = 1  # type: ignore\n"` and the report line
`"a.py:1: error: m x  [arg-type]"` (with the default fix-me marker
`"FIX ME"`) rewrites the file to
`"x = 1  # type: ignore[arg-type] # FIX ME"`; running the engine a second
time over the same report and the produced file rewrites it again, to
`"x = 1  # type: ignore[arg-type] # FIX ME # FIX ME"` — the fix-me suffix
is re-appended, so applying the pipeline twice is not byte-identical to
applying it once.  The two token streams are CPython's for the two file
contents. -/
theorem C2_idempotence_counterexample :
    (let content0 : PyStr := "x = 1  # type: ignore\n".data
     let content1 : PyStr := "x = 1  # type: ignore[arg-type] # FIX ME".data
     let toks0 : List Token :=
       [⟨.OTHER, (1, 0), (1, 1), content0, "x".data⟩,
        ⟨.OTHER, (1, 2), (1, 3), content0, "=".data⟩,
        ⟨.OTHER, (1, 4), (1, 5), content0, "1".data⟩,
        ⟨.COMMENT, (1, 7), (1, 21), content0, "# type: ignore".data⟩,
        ⟨.OTHER, (1, 21), (1, 22), content0, "\n".data⟩,
        ⟨.OTHER, (2, 0), (2, 1), [], []⟩]
     let toks1 : List Token :=
       [⟨.OTHER, (1, 0), (1, 1), content1, "x".data⟩,
        ⟨.OTHER, (1, 2), (1, 3), content1, "=".data⟩,
        ⟨.OTHER, (1, 4), (1, 5), content1, "1".data⟩,
        ⟨.COMMENT, (1, 7), (1, 41), content1,
          "# type: ignore[arg-type] # FIX ME".data⟩,
        ⟨.OTHER, (1, 41), (1, 41), content1, []⟩,
        ⟨.OTHER, (2, 0), (2, 1), [], []⟩]
     let tok : Tokenizer := fun c =>
       if c = content0 then .ok toks0
       else if c = content1 then .ok toks1
       else .ok []
     let rpt : PyStr := "a.py:1: error: m x  [arg-type]".data
     let run := fun (fs : FS) =>
       silence_errors_in_report tok (fun _ => true) fs rpt [] [] []
         "none".data "FIX ME".data false none
     run [("a.py".data, content0)] =
       .ok (⟨[⟨"a.py".data, 1, none, "m x".data, "arg-type".data⟩], [], []⟩,
         [], [("a.py".data, content1)]) ∧
     run [("a.py".data, content1)] =
       .ok (⟨[⟨"a.py".data, 1, none, "m x".data, "arg-type".data⟩], [], []⟩,
         [], [("a.py".data,
           "x = 1  # type: ignore[arg-type] # FIX ME # FIX ME".data)]) ∧
     content1 ≠ "x = 1  # type: ignore[arg-type] # FIX ME # FIX ME".data) :=
  ⟨rfl, rfl, by decide⟩

/-- Witness for `C1_safety_reject_iff` at a concrete diagnostic and region
list: a `name-defined` diagnostic on line 2 inside a multi-line region
`(1, 3)`. -/
theorem C1_safety_reject_iff_witness :
    (({ filename := "a".data, line_no := 2, col_offset := none,
        message := "m".data, error_code := "name-defined".data } :
          MypyError).error_code ≠ "syntax".data) ∧
    _is_safe_to_silence
        { filename := "a".data, line_no := 2, col_offset := none,
          message := "m".data, error_code := "name-defined".data }
        [⟨1, 3⟩] = false :=
  ⟨by decide,
    (C1_safety_reject_iff
        { filename := "a".data, line_no := 2, col_offset := none,
          message := "m".data, error_code := "name-defined".data }
        [⟨1, 3⟩] (by decide)).1.mpr
      ⟨⟨1, 3⟩, by simp, by decide, by decide, by decide⟩⟩


/-! ### `Except.map` inversion -/

lemma except_map_ok {ε α β : Type} {f : α → β} {x : Except ε α} {b : β}
    (h : x.map f = .ok b) : ∃ a, x = .ok a ∧ f a = b := by
  cases x with
  | error e => simp [Except.map] at h
  | ok a => exact ⟨a, rfl, by simpa [Except.map] using h⟩

/-! ### `pyGroupBy` (`itertools.groupby`) lemmas -/

lemma pyGroupByGo_join {α : Type} (eq : α → α → Bool) :
    ∀ (xs : List α) (a : α) (cur : List α),
      (pyGroupByGo eq a cur xs).join = a :: (cur.reverse ++ xs) := by
  intro xs
  induction xs with
  | nil => intro a cur; simp [pyGroupByGo]
  | cons x xs ih =>
      intro a cur
      simp only [pyGroupByGo]
      by_cases h : eq a x = true
      · rw [if_pos h, ih]
        simp
      · rw [if_neg h]
        simp [ih]

lemma pyGroupBy_join {α : Type} (eq : α → α → Bool) (l : List α) :
    (pyGroupBy eq l).join = l := by
  cases l with
  | nil => rfl
  | cons a rest => simp [pyGroupBy, pyGroupByGo_join]

lemma mem_of_mem_pyGroupBy {α : Type} {eq : α → α → Bool} {l : List α}
    {g : List α} {e : α} (hg : g ∈ pyGroupBy eq l) (he : e ∈ g) : e ∈ l := by
  rw [← pyGroupBy_join eq l]
  exact List.mem_join.mpr ⟨g, hg, he⟩

lemma mem_pyGroupBy_of_mem {α : Type} {eq : α → α → Bool} {l : List α}
    {e : α} (he : e ∈ l) : ∃ g ∈ pyGroupBy eq l, e ∈ g := by
  rw [← pyGroupBy_join eq l] at he
  exact List.mem_join.mp he

lemma pyGroupByGo_homog {α β : Type} (k : α → β) (eq : α → α → Bool)
    (heq : ∀ a b, eq a b = true ↔ k a = k b) :
    ∀ (xs : List α) (a : α) (cur : List α),
      (∀ e ∈ cur, k e = k a) →
      ∀ g ∈ pyGroupByGo eq a cur xs,
        ∃ h t, g = h :: t ∧ ∀ e ∈ g, k e = k h := by
  intro xs
  induction xs with
  | nil =>
      intro a cur hcur g hg
      simp only [pyGroupByGo, List.mem_singleton] at hg
      subst hg
      refine ⟨a, cur.reverse, rfl, ?_⟩
      intro e he
      rcases List.mem_cons.mp he with h | h
      · rw [h]
      · exact hcur e (List.mem_reverse.mp h)
  | cons x xs ih =>
      intro a cur hcur g hg
      simp only [pyGroupByGo] at hg
      by_cases h : eq a x = true
      · rw [if_pos h] at hg
        refine ih a (x :: cur) ?_ g hg
        intro e he
        rcases List.mem_cons.mp he with h' | h'
        · rw [h']; exact ((heq a x).mp h).symm
        · exact hcur e h'
      · rw [if_neg h] at hg
        rcases List.mem_cons.mp hg with h' | h'
        · subst h'
          refine ⟨a, cur.reverse, rfl, ?_⟩
          intro e he
          rcases List.mem_cons.mp he with h'' | h''
          · rw [h'']
          · exact hcur e (List.mem_reverse.mp h'')
        · exact ih x [] (by simp) g h'

lemma pyGroupBy_homog {α β : Type} (k : α → β) (eq : α → α → Bool)
    (heq : ∀ a b, eq a b = true ↔ k a = k b) (l : List α) :
    ∀ g ∈ pyGroupBy eq l, ∃ h t, g = h :: t ∧ ∀ e ∈ g, k e = k h := by
  cases l with
  | nil => intro g hg; simp [pyGroupBy] at hg
  | cons a rest =>
      intro g hg
      exact pyGroupByGo_homog k eq heq rest a [] (by simp) g hg

/-! ### File-system lemmas -/

lemma fsRead_fsWrite_ne (fs : FS) (f g : PyStr) (c : PyStr) (hne : g ≠ f) :
    fsRead (fsWrite fs f c) g = fsRead fs g := by
  induction fs with
  | nil => simp [fsWrite, fsRead, List.find?, hne, Ne.symm hne]
  | cons p rest ih =>
      obtain ⟨n, c₀⟩ := p
      simp only [fsWrite]
      by_cases h : n = f
      · subst h
        rw [if_pos rfl]
        simp [fsRead, List.find?, Ne.symm hne]
      · rw [if_neg h]
        by_cases hg : n = g
        · subst hg
          simp [fsRead, List.find?]
        · simp only [fsRead, List.find?] at ih ⊢
          have hb : (decide (n = g)) = false := by simp [hg]
          rw [hb]
          simpa [fsRead] using ih

/-! ### `silence_errors_in_file` / `reportGo` structural lemmas -/

lemma silence_file_ok_safe {tokenizer : Tokenizer} {content : PyStr}
    {grp : List MypyError} {dsty fx : PyStr} {nc : PyStr} {s : List MypyError}
    (h : silence_errors_in_file tokenizer content grp dsty fx = .ok (nc, s)) :
    ∃ tokens, tokenizer content = .ok tokens ∧
      s = filter_by_silenceability grp
        ((split_into_code_and_comment content tokens).map
          (fun l => l.comment)) tokens := by
  cases htk : tokenizer content with
  | error u => simp [silence_errors_in_file, htk] at h
  | ok tokens =>
      simp only [silence_errors_in_file, htk] at h
      obtain ⟨fl, hfl, hpair⟩ := except_map_ok h
      exact ⟨tokens, rfl, (congrArg Prod.snd hpair).symm⟩

lemma mem_filter_by_silenceability {e : MypyError} {errors : List MypyError}
    {comments : List PyStr} {tokens : List Token}
    (h : e ∈ filter_by_silenceability errors comments tokens) :
    e ∈ errors ∧
      _is_safe_to_silence e (_find_unsilenceable_regions tokens comments) =
        true := by
  simp only [filter_by_silenceability] at h
  exact List.mem_filter.mp h

lemma reportGo_cons_missing {tokenizer : Tokenizer} {dsty fx : PyStr}
    {dry : Bool} {grp : List MypyError} {rest : List (List MypyError)}
    {sil : List MypyError} {msgs : List PyStr} {fs : FS}
    (hread : fsRead fs ((grp.headD ⟨[], 0, none, [], []⟩).filename) = none) :
    reportGo tokenizer dsty fx dry (grp :: rest) sil msgs fs =
      reportGo tokenizer dsty fx dry rest sil
        (msgs ++ [TRY_SHOW_ABSOLUTE_PATH
          ((grp.headD ⟨[], 0, none, [], []⟩).filename)]) fs := by
  simp only [reportGo, hread]

lemma reportGo_cons_tokfail {tokenizer : Tokenizer} {dsty fx : PyStr}
    {dry : Bool} {grp : List MypyError} {rest : List (List MypyError)}
    {sil : List MypyError} {msgs : List PyStr} {fs : FS} {content : PyStr}
    (hread : fsRead fs ((grp.headD ⟨[], 0, none, [], []⟩).filename) =
      some content)
    (hsf : silence_errors_in_file tokenizer content grp dsty fx =
      .error PyExc.tokenError) :
    reportGo tokenizer dsty fx dry (grp :: rest) sil msgs fs =
      reportGo tokenizer dsty fx dry rest sil
        (msgs ++ [UNABLE_TO_TOKENIZE
          ((grp.headD ⟨[], 0, none, [], []⟩).filename)]) fs := by
  simp only [reportGo, hread, hsf]

lemma reportGo_cons_err {tokenizer : Tokenizer} {dsty fx : PyStr}
    {dry : Bool} {grp : List MypyError} {rest : List (List MypyError)}
    {sil : List MypyError} {msgs : List PyStr} {fs : FS} {content : PyStr}
    {ex : PyExc}
    (hread : fsRead fs ((grp.headD ⟨[], 0, none, [], []⟩).filename) =
      some content)
    (hsf : silence_errors_in_file tokenizer content grp dsty fx = .error ex)
    (hne : ex ≠ PyExc.tokenError) :
    reportGo tokenizer dsty fx dry (grp :: rest) sil msgs fs = .error ex := by
  cases ex
  case tokenError => exact absurd rfl hne
  all_goals simp only [reportGo, hread, hsf]

lemma reportGo_cons_ok {tokenizer : Tokenizer} {dsty fx : PyStr}
    {dry : Bool} {grp : List MypyError} {rest : List (List MypyError)}
    {sil : List MypyError} {msgs : List PyStr} {fs : FS} {content : PyStr}
    {nc : PyStr} {safe : List MypyError}
    (hread : fsRead fs ((grp.headD ⟨[], 0, none, [], []⟩).filename) =
      some content)
    (hsf : silence_errors_in_file tokenizer content grp dsty fx =
      .ok (nc, safe)) :
    reportGo tokenizer dsty fx dry (grp :: rest) sil msgs fs =
      reportGo tokenizer dsty fx dry rest (sil ++ safe) msgs
        (if dry then fs
         else fsWrite fs ((grp.headD ⟨[], 0, none, [], []⟩).filename) nc) := by
  simp only [reportGo, hread, hsf]

/-- Inversion of one successful step of the per-file report loop. -/
lemma reportGo_cons_ok_inv {tokenizer : Tokenizer} {dsty fx : PyStr}
    {dry : Bool} {grp : List MypyError} {rest : List (List MypyError)}
    {sil : List MypyError} {msgs : List PyStr} {fs : FS}
    {out : List MypyError × List PyStr × FS}
    (h : reportGo tokenizer dsty fx dry (grp :: rest) sil msgs fs = .ok out) :
    (fsRead fs ((grp.headD ⟨[], 0, none, [], []⟩).filename) = none ∧
      reportGo tokenizer dsty fx dry rest sil
        (msgs ++ [TRY_SHOW_ABSOLUTE_PATH
          ((grp.headD ⟨[], 0, none, [], []⟩).filename)]) fs = .ok out) ∨
    (∃ content,
      fsRead fs ((grp.headD ⟨[], 0, none, [], []⟩).filename) = some content ∧
      silence_errors_in_file tokenizer content grp dsty fx =
        .error PyExc.tokenError ∧
      reportGo tokenizer dsty fx dry rest sil
        (msgs ++ [UNABLE_TO_TOKENIZE
          ((grp.headD ⟨[], 0, none, [], []⟩).filename)]) fs = .ok out) ∨
    (∃ content nc safe,
      fsRead fs ((grp.headD ⟨[], 0, none, [], []⟩).filename) = some content ∧
      silence_errors_in_file tokenizer content grp dsty fx = .ok (nc, safe) ∧
      reportGo tokenizer dsty fx dry rest (sil ++ safe) msgs
        (if dry then fs
         else fsWrite fs ((grp.headD ⟨[], 0, none, [], []⟩).filename) nc) =
        .ok out) := by
  cases hread : fsRead fs ((grp.headD ⟨[], 0, none, [], []⟩).filename) with
  | none =>
      left
      exact ⟨rfl, by rwa [reportGo_cons_missing hread] at h⟩
  | some content =>
      cases hsf : silence_errors_in_file tokenizer content grp dsty fx with
      | error ex =>
          cases ex
          case tokenError =>
            exact Or.inr (Or.inl ⟨content, rfl, hsf,
              by rwa [reportGo_cons_tokfail hread hsf] at h⟩)
          all_goals {
            rw [reportGo_cons_err hread hsf (by intro hc; cases hc)] at h
            exact Except.noConfusion h }
      | ok pair =>
          obtain ⟨nc, safe⟩ := pair
          exact Or.inr (Or.inr ⟨content, nc, safe, rfl, hsf,
            by rwa [reportGo_cons_ok hread hsf] at h⟩)

/-- Messages only accumulate along the report loop. -/
lemma reportGo_msgs_mono (tokenizer : Tokenizer) (dsty fx : PyStr)
    (dry : Bool) :
    ∀ (groups : List (List MypyError)) (sil : List MypyError)
      (msgs : List PyStr) (fs : FS) (out : List MypyError × List PyStr × FS),
      reportGo tokenizer dsty fx dry groups sil msgs fs = .ok out →
      ∀ m ∈ msgs, m ∈ out.2.1 := by
  intro groups
  induction groups with
  | nil =>
      intro sil msgs fs out h m hm
      simp only [reportGo, Except.ok.injEq] at h
      subst h
      exact hm
  | cons grp rest ih =>
      intro sil msgs fs out h m hm
      rcases reportGo_cons_ok_inv h with ⟨hread, h'⟩ |
        ⟨content, hread, hsf, h'⟩ | ⟨content, nc, safe, hread, hsf, h'⟩
      · exact ih _ _ _ _ h' m (List.mem_append_left _ hm)
      · exact ih _ _ _ _ h' m (List.mem_append_left _ hm)
      · exact ih _ _ _ _ h' m hm

/-- Every error silenced by the report loop belongs to the initial
accumulator or to one of the remaining groups, and in the latter case its
code is not `"syntax"` (it passed the safety analysis). -/
lemma reportGo_silenced_mem (tokenizer : Tokenizer) (dsty fx : PyStr)
    (dry : Bool) :
    ∀ (groups : List (List MypyError)) (sil : List MypyError)
      (msgs : List PyStr) (fs : FS) (out : List MypyError × List PyStr × FS),
      reportGo tokenizer dsty fx dry groups sil msgs fs = .ok out →
      ∀ e ∈ out.1, e ∈ sil ∨
        ((∃ g ∈ groups, e ∈ g) ∧ e.error_code ≠ "syntax".data) := by
  intro groups
  induction groups with
  | nil =>
      intro sil msgs fs out h e he
      simp only [reportGo, Except.ok.injEq] at h
      subst h
      exact Or.inl he
  | cons grp rest ih =>
      intro sil msgs fs out h e he
      rcases reportGo_cons_ok_inv h with ⟨hread, h'⟩ |
        ⟨content, hread, hsf, h'⟩ | ⟨content, nc, safe, hread, hsf, h'⟩
      · rcases ih _ _ _ _ h' e he with hs | ⟨⟨g, hg, heg⟩, hns⟩
        · exact Or.inl hs
        · exact Or.inr ⟨⟨g, List.mem_cons_of_mem _ hg, heg⟩, hns⟩
      · rcases ih _ _ _ _ h' e he with hs | ⟨⟨g, hg, heg⟩, hns⟩
        · exact Or.inl hs
        · exact Or.inr ⟨⟨g, List.mem_cons_of_mem _ hg, heg⟩, hns⟩
      · rcases ih _ _ _ _ h' e he with hs | ⟨⟨g, hg, heg⟩, hns⟩
        · rcases List.mem_append.mp hs with h1 | h1
          · exact Or.inl h1
          · obtain ⟨tokens, htk, hsafe⟩ := silence_file_ok_safe hsf
            rw [hsafe] at h1
            obtain ⟨hmem, hpred⟩ := mem_filter_by_silenceability h1
            refine Or.inr ⟨⟨grp, List.mem_cons_self _ _, hmem⟩, ?_⟩
            intro hc
            simp [_is_safe_to_silence, hc] at hpred
        · exact Or.inr ⟨⟨g, List.mem_cons_of_mem _ hg, heg⟩, hns⟩


/-! ### Filter and report-level inversion lemmas -/

lemma filter_by_source_subset (included : MypyError → Bool)
    (packages modules files : List PyStr) (errors : List MypyError) :
    ∀ e ∈ filter_by_source included packages modules files errors,
      e ∈ errors := by
  intro e he
  unfold filter_by_source at he
  split at he
  · exact he
  · exact List.mem_of_mem_filter he

lemma filter_by_code_subset (errors : List MypyError)
    (codes : Option (List PyStr)) :
    ∀ e ∈ filter_by_code errors codes, e ∈ errors := by
  intro e he
  unfold filter_by_code at he
  split at he
  · exact he
  · exact List.mem_of_mem_filter he

/-- Inversion of a successful `silence_errors_in_report` run: the underlying
loop succeeded and the result components are as assembled from its output. -/
lemma silence_report_ok_inv {tokenizer : Tokenizer}
    {included : MypyError → Bool} {fs : FS} {report : PyStr}
    {packages modules files : List PyStr} {dsty fx : PyStr} {dry : Bool}
    {codes : Option (List PyStr)} {result : MypyUpgradeResult}
    {messages : List PyStr} {fs' : FS}
    (h : silence_errors_in_report tokenizer included fs report packages
      modules files dsty fx dry codes = .ok (result, messages, fs')) :
    ∃ out, reportGo tokenizer dsty fx dry
        (pyGroupBy (fun a b => decide (a.filename = b.filename))
          (filter_by_code
            (filter_by_source included packages modules files
              (parse_mypy_report report)) codes)) [] [] fs = .ok out ∧
      result.silenced = out.1 ∧
      result.failures =
        (filter_by_code
          (filter_by_source included packages modules files
            (parse_mypy_report report)) codes).filter
          (fun e => !(decide (e ∈ out.1))) ∧
      result.ignored = (parse_mypy_report report).filter
        (fun e => !(decide (e ∈ filter_by_code
          (filter_by_source included packages modules files
            (parse_mypy_report report)) codes))) ∧
      messages = out.2.1 ∧ fs' = out.2.2 := by
  simp only [silence_errors_in_report] at h
  obtain ⟨out, hout, hmap⟩ := except_map_ok h
  have h1 := congrArg Prod.fst hmap
  have h2 := congrArg (fun p => p.2.1) hmap
  have h3 := congrArg (fun p => p.2.2) hmap
  exact ⟨out, hout, (congrArg MypyUpgradeResult.silenced h1).symm,
    (congrArg MypyUpgradeResult.failures h1).symm,
    (congrArg MypyUpgradeResult.ignored h1).symm, h2.symm, h3.symm⟩

/-- Claim C9 (confirmed).  A diagnostic whose code is `"syntax"` is rejected
by the safety analysis against every list of unsilenceable regions, and for
every successful run of `silence.silence_errors_in_report` in which such a
diagnostic survives the source/code filters it lands in the `failures`
component of the result, never in `silenced`. -/
theorem C9_syntax_never_silenced
    (tokenizer : Tokenizer) (included : MypyError → Bool) (fs : FS)
    (report : PyStr) (packages modules files : List PyStr)
    (dsty fx : PyStr) (dry_run : Bool) (codes : Option (List PyStr))
    (result : MypyUpgradeResult) (messages : List PyStr) (fs' : FS)
    (e : MypyError) (he : e.error_code = "syntax".data)
    (hrun : silence_errors_in_report tokenizer included fs report packages
      modules files dsty fx dry_run codes = .ok (result, messages, fs'))
    (hmem : e ∈ filter_by_code
      (filter_by_source included packages modules files
        (parse_mypy_report report)) codes) :
    (∀ regions, _is_safe_to_silence e regions = false) ∧
    e ∉ result.silenced ∧ e ∈ result.failures := by
  obtain ⟨out, hout, hsil, hfail, hign, hmsg, hfs⟩ := silence_report_ok_inv hrun
  have hnot : e ∉ out.1 := by
    intro hin
    rcases reportGo_silenced_mem tokenizer dsty fx dry_run _ _ _ _ _ hout e hin
      with h0 | ⟨_, hns⟩
    · exact absurd h0 (by simp)
    · exact hns he
  refine ⟨?_, ?_, ?_⟩
  · intro regions; simp [_is_safe_to_silence, he]
  · rw [hsil]; exact hnot
  · rw [hfail]
    exact List.mem_filter.mpr ⟨hmem, by simpa using hnot⟩

set_option maxRecDepth 10000 in
/-- Witness for `C9_syntax_never_silenced`: the report line
`"a.py:1: error: m x  [syntax]"` over an empty file system; the diagnostic
is rejected by the safety analysis on any region list and ends in
`failures`. -/
theorem C9_syntax_never_silenced_witness :
    _is_safe_to_silence ⟨"a.py".data, 1, none, "m x".data, "syntax".data⟩
        [] = false ∧
    (⟨"a.py".data, 1, none, "m x".data, "syntax".data⟩ : MypyError) ∉
      ([] : List MypyError) ∧
    (⟨"a.py".data, 1, none, "m x".data, "syntax".data⟩ : MypyError) ∈
      [(⟨"a.py".data, 1, none, "m x".data, "syntax".data⟩ : MypyError)] := by
  have h := C9_syntax_never_silenced (fun _ => Except.ok [])
    (fun _ => true) [] "a.py:1: error: m x  [syntax]".data [] [] [] [] []
    false none
    ⟨[], [⟨"a.py".data, 1, none, "m x".data, "syntax".data⟩], []⟩
    [TRY_SHOW_ABSOLUTE_PATH "a.py".data] []
    ⟨"a.py".data, 1, none, "m x".data, "syntax".data⟩
    rfl (by decide) (by decide)
  exact ⟨h.1 [], h.2.1, h.2.2⟩


/-! ### Nodup preservation through the pipeline -/

lemma filter_by_source_nodup (included : MypyError → Bool)
    (packages modules files : List PyStr) {errors : List MypyError}
    (h : errors.Nodup) :
    (filter_by_source included packages modules files errors).Nodup := by
  unfold filter_by_source
  split
  · exact h
  · exact h.filter _

lemma filter_by_code_nodup {errors : List MypyError}
    (codes : Option (List PyStr)) (h : errors.Nodup) :
    (filter_by_code errors codes).Nodup := by
  unfold filter_by_code
  split
  · exact h
  · exact h.filter _

/-- The silenced accumulator of the report loop stays duplicate-free when
the groups are duplicate-free and pairwise disjoint. -/
lemma reportGo_silenced_nodup (tokenizer : Tokenizer) (dsty fx : PyStr)
    (dry : Bool) :
    ∀ (groups : List (List MypyError)) (sil : List MypyError)
      (msgs : List PyStr) (fs : FS) (out : List MypyError × List PyStr × FS),
      reportGo tokenizer dsty fx dry groups sil msgs fs = .ok out →
      sil.Nodup →
      (∀ e ∈ sil, ∀ g ∈ groups, e ∉ g) →
      (∀ g ∈ groups, g.Nodup) →
      List.Pairwise List.Disjoint groups →
      out.1.Nodup := by
  intro groups
  induction groups with
  | nil =>
      intro sil msgs fs out h hnd hdisj hgnd hpw
      simp only [reportGo, Except.ok.injEq] at h
      subst h
      exact hnd
  | cons grp rest ih =>
      intro sil msgs fs out h hnd hdisj hgnd hpw
      rcases reportGo_cons_ok_inv h with ⟨hread, h'⟩ |
        ⟨content, hread, hsf, h'⟩ | ⟨content, nc, safe, hread, hsf, h'⟩
      · exact ih _ _ _ _ h' hnd
          (fun e he g hg => hdisj e he g (List.mem_cons_of_mem _ hg))
          (fun g hg => hgnd g (List.mem_cons_of_mem _ hg)) hpw.of_cons
      · exact ih _ _ _ _ h' hnd
          (fun e he g hg => hdisj e he g (List.mem_cons_of_mem _ hg))
          (fun g hg => hgnd g (List.mem_cons_of_mem _ hg)) hpw.of_cons
      · obtain ⟨tokens, htk, hsafe⟩ := silence_file_ok_safe hsf
        have hsafesub : ∀ e ∈ safe, e ∈ grp := by
          intro e he
          rw [hsafe] at he
          exact (mem_filter_by_silenceability he).1
        have hsafend : safe.Nodup := by
          rw [hsafe]
          simp only [filter_by_silenceability]
          exact (hgnd grp (List.mem_cons_self _ _)).filter _
        refine ih _ _ _ _ h' ?_ ?_
          (fun g hg => hgnd g (List.mem_cons_of_mem _ hg)) hpw.of_cons
        · refine List.Nodup.append hnd hsafend ?_
          intro a ha haf
          exact hdisj a ha grp (List.mem_cons_self _ _) (hsafesub a haf)
        · intro e he g hg
          rcases List.mem_append.mp he with h1 | h1
          · exact hdisj e h1 g (List.mem_cons_of_mem _ hg)
          · exact (List.rel_of_pairwise_cons hpw hg) (hsafesub e h1)

/-- Claim C10 (confirmed).  For a duplicate-free parsed report, every parsed
diagnostic belongs to exactly one of the three components of a successful
run of `silence.silence_errors_in_report`, each component contains only
parsed diagnostics, and each component is itself duplicate-free. -/
theorem C10_result_partitions_report
    (tokenizer : Tokenizer) (included : MypyError → Bool) (fs : FS)
    (report : PyStr) (packages modules files : List PyStr)
    (dsty fx : PyStr) (dry_run : Bool) (codes : Option (List PyStr))
    (result : MypyUpgradeResult) (messages : List PyStr) (fs' : FS)
    (hnd : (parse_mypy_report report).Nodup)
    (hrun : silence_errors_in_report tokenizer included fs report packages
      modules files dsty fx dry_run codes = .ok (result, messages, fs')) :
    (∀ e ∈ parse_mypy_report report,
      (e ∈ result.silenced ∧ e ∉ result.failures ∧ e ∉ result.ignored) ∨
      (e ∉ result.silenced ∧ e ∈ result.failures ∧ e ∉ result.ignored) ∨
      (e ∉ result.silenced ∧ e ∉ result.failures ∧ e ∈ result.ignored)) ∧
    (∀ e ∈ result.silenced, e ∈ parse_mypy_report report) ∧
    (∀ e ∈ result.failures, e ∈ parse_mypy_report report) ∧
    (∀ e ∈ result.ignored, e ∈ parse_mypy_report report) ∧
    result.silenced.Nodup ∧ result.failures.Nodup ∧ result.ignored.Nodup := by
  obtain ⟨out, hout, hsil, hfail, hign, hmsg, hfs⟩ := silence_report_ok_inv hrun
  have hCFsub : ∀ e ∈ filter_by_code
      (filter_by_source included packages modules files
        (parse_mypy_report report)) codes, e ∈ parse_mypy_report report :=
    fun e he => filter_by_source_subset included packages modules files _ e
      (filter_by_code_subset _ codes e he)
  have hCFnd : (filter_by_code
      (filter_by_source included packages modules files
        (parse_mypy_report report)) codes).Nodup :=
    filter_by_code_nodup codes
      (filter_by_source_nodup included packages modules files hnd)
  have hjoinnd : ((pyGroupBy
      (fun a b : MypyError => decide (a.filename = b.filename))
      (filter_by_code
        (filter_by_source included packages modules files
          (parse_mypy_report report)) codes)).join).Nodup := by
    rw [pyGroupBy_join]; exact hCFnd
  have hgroups := List.nodup_join.mp hjoinnd
  have hsilsub : ∀ e ∈ out.1, e ∈ filter_by_code
      (filter_by_source included packages modules files
        (parse_mypy_report report)) codes := by
    intro e he
    rcases reportGo_silenced_mem tokenizer dsty fx dry_run _ _ _ _ _ hout e he
      with h0 | ⟨⟨g, hg, heg⟩, _⟩
    · exact absurd h0 (by simp)
    · exact mem_of_mem_pyGroupBy hg heg
  have hsilnd : out.1.Nodup :=
    reportGo_silenced_nodup tokenizer dsty fx dry_run _ _ _ _ _ hout
      List.nodup_nil (by intro e he; exact absurd he (by simp))
      hgroups.1 hgroups.2
  have hfailmem : ∀ e, e ∈ result.failures ↔
      (e ∈ filter_by_code
        (filter_by_source included packages modules files
          (parse_mypy_report report)) codes ∧ e ∉ out.1) := by
    intro e
    rw [hfail]
    simp [List.mem_filter]
  have hignmem : ∀ e, e ∈ result.ignored ↔
      (e ∈ parse_mypy_report report ∧ e ∉ filter_by_code
        (filter_by_source included packages modules files
          (parse_mypy_report report)) codes) := by
    intro e
    rw [hign]
    simp [List.mem_filter]
  refine ⟨?_, ?_, ?_, ?_, ?_, ?_, ?_⟩
  · intro e he
    by_cases hcf : e ∈ filter_by_code
        (filter_by_source included packages modules files
          (parse_mypy_report report)) codes
    · by_cases hs : e ∈ out.1
      · refine Or.inl ⟨by rwa [hsil], ?_, ?_⟩
        · intro hc; exact ((hfailmem e).mp hc).2 hs
        · intro hc; exact ((hignmem e).mp hc).2 hcf
      · refine Or.inr (Or.inl ⟨by rw [hsil]; exact hs,
          (hfailmem e).mpr ⟨hcf, hs⟩, ?_⟩)
        intro hc; exact ((hignmem e).mp hc).2 hcf
    · refine Or.inr (Or.inr ⟨?_, ?_, (hignmem e).mpr ⟨he, hcf⟩⟩)
      · rw [hsil]; intro hc; exact hcf (hsilsub e hc)
      · intro hc; exact hcf ((hfailmem e).mp hc).1
  · intro e he
    rw [hsil] at he
    exact hCFsub e (hsilsub e he)
  · intro e he
    exact hCFsub e ((hfailmem e).mp he).1
  · intro e he
    exact ((hignmem e).mp he).1
  · rw [hsil]; exact hsilnd
  · rw [hfail]; exact hCFnd.filter _
  · rw [hign]; exact hnd.filter _

set_option maxRecDepth 10000 in
/-- Witness for `C10_result_partitions_report`: a two-line report in which
the first diagnostic ends in `failures` (its file is missing) and the second
in `ignored` (not in the code allow-list). -/
theorem C10_result_partitions_report_witness :
    (∀ e ∈ parse_mypy_report
        "a.py:1: error: m x  [arg-type]\nb.py:2: error: n y  [name-defined]".data,
      (e ∈ ([] : List MypyError) ∧
        e ∉ [(⟨"a.py".data, 1, none, "m x".data, "arg-type".data⟩ : MypyError)] ∧
        e ∉ [(⟨"b.py".data, 2, none, "n y".data, "name-defined".data⟩ : MypyError)]) ∨
      (e ∉ ([] : List MypyError) ∧
        e ∈ [(⟨"a.py".data, 1, none, "m x".data, "arg-type".data⟩ : MypyError)] ∧
        e ∉ [(⟨"b.py".data, 2, none, "n y".data, "name-defined".data⟩ : MypyError)]) ∨
      (e ∉ ([] : List MypyError) ∧
        e ∉ [(⟨"a.py".data, 1, none, "m x".data, "arg-type".data⟩ : MypyError)] ∧
        e ∈ [(⟨"b.py".data, 2, none, "n y".data, "name-defined".data⟩ : MypyError)])) ∧
    (∀ e ∈ ([] : List MypyError), e ∈ parse_mypy_report
        "a.py:1: error: m x  [arg-type]\nb.py:2: error: n y  [name-defined]".data) ∧
    (∀ e ∈ [(⟨"a.py".data, 1, none, "m x".data, "arg-type".data⟩ : MypyError)],
      e ∈ parse_mypy_report
        "a.py:1: error: m x  [arg-type]\nb.py:2: error: n y  [name-defined]".data) ∧
    (∀ e ∈ [(⟨"b.py".data, 2, none, "n y".data, "name-defined".data⟩ : MypyError)],
      e ∈ parse_mypy_report
        "a.py:1: error: m x  [arg-type]\nb.py:2: error: n y  [name-defined]".data) ∧
    ([] : List MypyError).Nodup ∧
    [(⟨"a.py".data, 1, none, "m x".data, "arg-type".data⟩ : MypyError)].Nodup ∧
    [(⟨"b.py".data, 2, none, "n y".data, "name-defined".data⟩ : MypyError)].Nodup :=
  C10_result_partitions_report (fun _ => Except.ok []) (fun _ => true) []
    "a.py:1: error: m x  [arg-type]\nb.py:2: error: n y  [name-defined]".data
    [] [] [] [] [] false (some ["arg-type".data])
    ⟨[], [⟨"a.py".data, 1, none, "m x".data, "arg-type".data⟩],
      [⟨"b.py".data, 2, none, "n y".data, "name-defined".data⟩]⟩
    [TRY_SHOW_ABSOLUTE_PATH "a.py".data] [] (by decide) (by decide)

/-! ### Failure-handling lemmas (missing file / tokenize failure) -/

lemma silence_file_tokfail {tokenizer : Tokenizer} {content : PyStr}
    (grp : List MypyError) (dsty fx : PyStr)
    (htok : tokenizer content = .error ()) :
    silence_errors_in_file tokenizer content grp dsty fx =
      .error PyExc.tokenError := by
  simp only [silence_errors_in_file, htok]

/-- Report loop with a file that is absent throughout: none of its
diagnostics is ever silenced, and each of its groups records the
file-not-found message. -/
lemma reportGo_missing (tokenizer : Tokenizer) (dsty fx : PyStr) (dry : Bool)
    (f : PyStr) :
    ∀ (groups : List (List MypyError)) (sil : List MypyError)
      (msgs : List PyStr) (fs : FS) (out : List MypyError × List PyStr × FS),
      reportGo tokenizer dsty fx dry groups sil msgs fs = .ok out →
      fsRead fs f = none →
      (∀ g ∈ groups, ∀ e ∈ g,
        e.filename = (g.headD ⟨[], 0, none, [], []⟩).filename) →
      (∀ e ∈ out.1, e.filename = f → e ∈ sil) ∧
      (∀ g ∈ groups, (g.headD ⟨[], 0, none, [], []⟩).filename = f →
        TRY_SHOW_ABSOLUTE_PATH f ∈ out.2.1) := by
  intro groups
  induction groups with
  | nil =>
      intro sil msgs fs out h hf hhom
      simp only [reportGo, Except.ok.injEq] at h
      subst h
      exact ⟨fun e he _ => he, fun g hg => absurd hg (by simp)⟩
  | cons grp rest ih =>
      intro sil msgs fs out h hf hhom
      rcases reportGo_cons_ok_inv h with ⟨hread, h'⟩ |
        ⟨content, hread, hsf, h'⟩ | ⟨content, nc, safe, hread, hsf, h'⟩
      · obtain ⟨H1, H2⟩ := ih _ _ _ _ h' hf
          (fun g hg => hhom g (List.mem_cons_of_mem _ hg))
        refine ⟨H1, ?_⟩
        intro g hg hgf
        rcases List.mem_cons.mp hg with hgrp | hgrest
        · subst hgrp
          refine reportGo_msgs_mono tokenizer dsty fx dry _ _ _ _ _ h' _ ?_
          rw [← hgf]
          exact List.mem_append_right _ (by simp)
        · exact H2 g hgrest hgf
      · have hne : (grp.headD ⟨[], 0, none, [], []⟩).filename ≠ f := by
          intro hc
          rw [hc, hf] at hread
          exact Option.noConfusion hread
        obtain ⟨H1, H2⟩ := ih _ _ _ _ h' hf
          (fun g hg => hhom g (List.mem_cons_of_mem _ hg))
        refine ⟨H1, ?_⟩
        intro g hg hgf
        rcases List.mem_cons.mp hg with hgrp | hgrest
        · subst hgrp; exact absurd hgf hne
        · exact H2 g hgrest hgf
      · have hne : (grp.headD ⟨[], 0, none, [], []⟩).filename ≠ f := by
          intro hc
          rw [hc, hf] at hread
          exact Option.noConfusion hread
        have hf' : fsRead
            (if dry then fs
             else fsWrite fs ((grp.headD ⟨[], 0, none, [], []⟩).filename) nc)
            f = none := by
          by_cases hd : dry
          · rw [if_pos hd]; exact hf
          · rw [if_neg hd, fsRead_fsWrite_ne _ _ _ _ (Ne.symm hne)]; exact hf
        obtain ⟨H1, H2⟩ := ih _ _ _ _ h' hf'
          (fun g hg => hhom g (List.mem_cons_of_mem _ hg))
        refine ⟨?_, ?_⟩
        · intro e he hef
          rcases List.mem_append.mp (H1 e he hef) with h1 | h1
          · exact h1
          · exfalso
            obtain ⟨tokens, htk, hsafe⟩ := silence_file_ok_safe hsf
            rw [hsafe] at h1
            have := hhom grp (List.mem_cons_self _ _) e
              (mem_filter_by_silenceability h1).1
            exact hne (by rw [← this, hef])
        · intro g hg hgf
          rcases List.mem_cons.mp hg with hgrp | hgrest
          · subst hgrp; exact absurd hgf hne
          · exact H2 g hgrest hgf

/-- Report loop with a file that is present but fails to tokenize
throughout: none of its diagnostics is ever silenced, and each of its
groups records the tokenize-failure message. -/
lemma reportGo_tokenize_failure (tokenizer : Tokenizer) (dsty fx : PyStr)
    (dry : Bool) (f content : PyStr) :
    ∀ (groups : List (List MypyError)) (sil : List MypyError)
      (msgs : List PyStr) (fs : FS) (out : List MypyError × List PyStr × FS),
      reportGo tokenizer dsty fx dry groups sil msgs fs = .ok out →
      fsRead fs f = some content →
      tokenizer content = .error () →
      (∀ g ∈ groups, ∀ e ∈ g,
        e.filename = (g.headD ⟨[], 0, none, [], []⟩).filename) →
      (∀ e ∈ out.1, e.filename = f → e ∈ sil) ∧
      (∀ g ∈ groups, (g.headD ⟨[], 0, none, [], []⟩).filename = f →
        UNABLE_TO_TOKENIZE f ∈ out.2.1) := by
  intro groups
  induction groups with
  | nil =>
      intro sil msgs fs out h hf htok hhom
      simp only [reportGo, Except.ok.injEq] at h
      subst h
      exact ⟨fun e he _ => he, fun g hg => absurd hg (by simp)⟩
  | cons grp rest ih =>
      intro sil msgs fs out h hf htok hhom
      rcases reportGo_cons_ok_inv h with ⟨hread, h'⟩ |
        ⟨content', hread, hsf, h'⟩ | ⟨content', nc, safe, hread, hsf, h'⟩
      · have hne : (grp.headD ⟨[], 0, none, [], []⟩).filename ≠ f := by
          intro hc
          rw [hc, hf] at hread
          exact Option.noConfusion hread
        obtain ⟨H1, H2⟩ := ih _ _ _ _ h' hf htok
          (fun g hg => hhom g (List.mem_cons_of_mem _ hg))
        refine ⟨H1, ?_⟩
        intro g hg hgf
        rcases List.mem_cons.mp hg with hgrp | hgrest
        · subst hgrp; exact absurd hgf hne
        · exact H2 g hgrest hgf
      · obtain ⟨H1, H2⟩ := ih _ _ _ _ h' hf htok
          (fun g hg => hhom g (List.mem_cons_of_mem _ hg))
        refine ⟨H1, ?_⟩
        intro g hg hgf
        rcases List.mem_cons.mp hg with hgrp | hgrest
        · subst hgrp
          refine reportGo_msgs_mono tokenizer dsty fx dry _ _ _ _ _ h' _ ?_
          rw [← hgf]
          exact List.mem_append_right _ (by simp)
        · exact H2 g hgrest hgf
      · have hne : (grp.headD ⟨[], 0, none, [], []⟩).filename ≠ f := by
          intro hc
          obtain ⟨tokens, htk, hsafe⟩ := silence_file_ok_safe hsf
          rw [hc, hf] at hread
          have hcontent : content' = content := by
            injection hread with hcc
            exact hcc.symm
          rw [hcontent, htok] at htk
          exact Except.noConfusion htk
        have hf' : fsRead
            (if dry then fs
             else fsWrite fs ((grp.headD ⟨[], 0, none, [], []⟩).filename) nc)
            f = some content := by
          by_cases hd : dry
          · rw [if_pos hd]; exact hf
          · rw [if_neg hd, fsRead_fsWrite_ne _ _ _ _ (Ne.symm hne)]; exact hf
        obtain ⟨H1, H2⟩ := ih _ _ _ _ h' hf' htok
          (fun g hg => hhom g (List.mem_cons_of_mem _ hg))
        refine ⟨?_, ?_⟩
        · intro e he hef
          rcases List.mem_append.mp (H1 e he hef) with h1 | h1
          · exact h1
          · exfalso
            obtain ⟨tokens, htk, hsafe⟩ := silence_file_ok_safe hsf
            rw [hsafe] at h1
            have := hhom grp (List.mem_cons_self _ _) e
              (mem_filter_by_silenceability h1).1
            exact hne (by rw [← this, hef])
        · intro g hg hgf
          rcases List.mem_cons.mp hg with hgrp | hgrest
          · subst hgrp; exact absurd hgf hne
          · exact H2 g hgrest hgf

/-- Claim C4 (confirmed).  In a successful run of
`silence.silence_errors_in_report`, a diagnostic of a missing file is not
silenced and lands in `failures` while the file-not-found message is
recorded; the same holds with the tokenize-failure message when the file
exists but fails to tokenize; and in either failure case the loop step is
exactly "record the message and continue with the remaining files". -/
theorem C4_failure_handling
    (tokenizer : Tokenizer) (included : MypyError → Bool) (fs : FS)
    (report : PyStr) (packages modules files : List PyStr)
    (dsty fx : PyStr) (dry_run : Bool) (codes : Option (List PyStr))
    (result : MypyUpgradeResult) (messages : List PyStr) (fs' : FS)
    (e : MypyError)
    (hrun : silence_errors_in_report tokenizer included fs report packages
      modules files dsty fx dry_run codes = .ok (result, messages, fs'))
    (hmem : e ∈ filter_by_code
      (filter_by_source included packages modules files
        (parse_mypy_report report)) codes) :
    (fsRead fs e.filename = none →
      TRY_SHOW_ABSOLUTE_PATH e.filename ∈ messages ∧
      e ∉ result.silenced ∧ e ∈ result.failures) ∧
    (∀ content, fsRead fs e.filename = some content →
      tokenizer content = .error () →
      UNABLE_TO_TOKENIZE e.filename ∈ messages ∧
      e ∉ result.silenced ∧ e ∈ result.failures) ∧
    (∀ (grp : List MypyError) (rest : List (List MypyError))
      (sil : List MypyError) (msgs : List PyStr) (fs₀ : FS),
      fsRead fs₀ ((grp.headD ⟨[], 0, none, [], []⟩).filename) = none →
      reportGo tokenizer dsty fx dry_run (grp :: rest) sil msgs fs₀ =
        reportGo tokenizer dsty fx dry_run rest sil
          (msgs ++ [TRY_SHOW_ABSOLUTE_PATH
            ((grp.headD ⟨[], 0, none, [], []⟩).filename)]) fs₀) ∧
    (∀ (grp : List MypyError) (rest : List (List MypyError))
      (sil : List MypyError) (msgs : List PyStr) (fs₀ : FS)
      (content : PyStr),
      fsRead fs₀ ((grp.headD ⟨[], 0, none, [], []⟩).filename) = some content →
      tokenizer content = .error () →
      reportGo tokenizer dsty fx dry_run (grp :: rest) sil msgs fs₀ =
        reportGo tokenizer dsty fx dry_run rest sil
          (msgs ++ [UNABLE_TO_TOKENIZE
            ((grp.headD ⟨[], 0, none, [], []⟩).filename)]) fs₀) := by
  obtain ⟨out, hout, hsil, hfail, hign, hmsg, hfs⟩ := silence_report_ok_inv hrun
  have hhomog : ∀ g ∈ pyGroupBy
      (fun a b : MypyError => decide (a.filename = b.filename))
      (filter_by_code
        (filter_by_source included packages modules files
          (parse_mypy_report report)) codes),
      ∀ e' ∈ g, e'.filename = (g.headD ⟨[], 0, none, [], []⟩).filename := by
    intro g hg e' he'
    obtain ⟨hh, tt, hgeq, hall⟩ := pyGroupBy_homog
      (fun x : MypyError => x.filename) _ (by intro a b; simp) _ g hg
    subst hgeq
    exact hall e' he'
  obtain ⟨g, hg, heg⟩ := @mem_pyGroupBy_of_mem _
    (fun a b : MypyError => decide (a.filename = b.filename)) _ _ hmem
  have hghead : (g.headD ⟨[], 0, none, [], []⟩).filename = e.filename :=
    (hhomog g hg e heg).symm
  refine ⟨?_, ?_, ?_, ?_⟩
  · intro hmiss
    obtain ⟨H1, H2⟩ := reportGo_missing tokenizer dsty fx dry_run e.filename
      _ _ _ _ _ hout hmiss hhomog
    have hnot : e ∉ out.1 := by
      intro hin
      exact absurd (H1 e hin rfl) (by simp)
    refine ⟨?_, ?_, ?_⟩
    · rw [hmsg]; exact H2 g hg hghead
    · rw [hsil]; exact hnot
    · rw [hfail]
      exact List.mem_filter.mpr ⟨hmem, by simpa using hnot⟩
  · intro content hsome htok
    obtain ⟨H1, H2⟩ := reportGo_tokenize_failure tokenizer dsty fx dry_run
      e.filename content _ _ _ _ _ hout hsome htok hhomog
    have hnot : e ∉ out.1 := by
      intro hin
      exact absurd (H1 e hin rfl) (by simp)
    refine ⟨?_, ?_, ?_⟩
    · rw [hmsg]; exact H2 g hg hghead
    · rw [hsil]; exact hnot
    · rw [hfail]
      exact List.mem_filter.mpr ⟨hmem, by simpa using hnot⟩
  · intro grp rest sil msgs fs₀ hmiss
    exact reportGo_cons_missing hmiss
  · intro grp rest sil msgs fs₀ content hsome htok
    exact reportGo_cons_tokfail hsome (silence_file_tokfail grp dsty fx htok)

set_option maxRecDepth 10000 in
/-- Witness for `C4_failure_handling`: a missing-file run (empty file
system) and a tokenize-failure run (file present, failing tokenizer); the
message is recorded and the diagnostic lands in `failures` in both. -/
theorem C4_failure_handling_witness :
    (TRY_SHOW_ABSOLUTE_PATH "a.py".data ∈
        [TRY_SHOW_ABSOLUTE_PATH "a.py".data] ∧
      (⟨"a.py".data, 1, none, "m x".data, "arg-type".data⟩ : MypyError) ∉
        ([] : List MypyError) ∧
      (⟨"a.py".data, 1, none, "m x".data, "arg-type".data⟩ : MypyError) ∈
        [(⟨"a.py".data, 1, none, "m x".data, "arg-type".data⟩ : MypyError)]) ∧
    (UNABLE_TO_TOKENIZE "b.py".data ∈ [UNABLE_TO_TOKENIZE "b.py".data] ∧
      (⟨"b.py".data, 1, none, "n y".data, "arg-type".data⟩ : MypyError) ∉
        ([] : List MypyError) ∧
      (⟨"b.py".data, 1, none, "n y".data, "arg-type".data⟩ : MypyError) ∈
        [(⟨"b.py".data, 1, none, "n y".data, "arg-type".data⟩ : MypyError)]) := by
  have h1 := C4_failure_handling (fun _ => Except.ok []) (fun _ => true) []
    "a.py:1: error: m x  [arg-type]".data [] [] [] [] [] false none
    ⟨[], [⟨"a.py".data, 1, none, "m x".data, "arg-type".data⟩], []⟩
    [TRY_SHOW_ABSOLUTE_PATH "a.py".data] []
    ⟨"a.py".data, 1, none, "m x".data, "arg-type".data⟩
    (by decide) (by decide)
  have h2 := C4_failure_handling (fun _ => Except.error ()) (fun _ => true)
    [("b.py".data, "x".data)]
    "b.py:1: error: n y  [arg-type]".data [] [] [] [] [] false none
    ⟨[], [⟨"b.py".data, 1, none, "n y".data, "arg-type".data⟩], []⟩
    [UNABLE_TO_TOKENIZE "b.py".data] [("b.py".data, "x".data)]
    ⟨"b.py".data, 1, none, "n y".data, "arg-type".data⟩
    (by decide) (by decide)
  exact ⟨h1.1 (by decide), h2.2.1 "x".data (by decide) (by decide)⟩

/-! ### Sortedness of the parsed report and distinctness of file groups -/

instance : IsTotal MypyError (fun a b => errorKeyLe a b = true) := by
  constructor
  intro a b
  by_cases hf : a.filename = b.filename
  · rcases Int.le_total a.line_no b.line_no with h | h
    · left; simp [errorKeyLe, hf, h]
    · right; simp [errorKeyLe, hf.symm, h]
  · rcases pyStrLt_connex hf with h | h
    · left; simp [errorKeyLe, h]
    · right; simp [errorKeyLe, h]

instance : IsTrans MypyError (fun a b => errorKeyLe a b = true) := by
  constructor
  intro a b c hab hbc
  simp only [errorKeyLe, Bool.or_eq_true, Bool.and_eq_true,
    decide_eq_true_eq] at hab hbc ⊢
  rcases hab with h1 | ⟨h1, h2⟩
  · rcases hbc with g1 | ⟨g1, g2⟩
    · exact Or.inl (pyStrLt_trans h1 g1)
    · exact Or.inl (g1 ▸ h1)
  · rcases hbc with g1 | ⟨g1, g2⟩
    · exact Or.inl (by rw [h1]; exact g1)
    · exact Or.inr ⟨h1.trans g1, le_trans h2 g2⟩

lemma parse_mypy_report_sorted (report : PyStr) :
    List.Pairwise (fun a b => errorKeyLe a b = true)
      (parse_mypy_report report) :=
  List.sorted_insertionSort _ _

lemma filter_by_source_pairwise {R : MypyError → MypyError → Prop}
    (included : MypyError → Bool) (packages modules files : List PyStr)
    {errors : List MypyError} (h : List.Pairwise R errors) :
    List.Pairwise R (filter_by_source included packages modules files errors)
    := by
  unfold filter_by_source
  split
  · exact h
  · exact h.filter _

lemma filter_by_code_pairwise {R : MypyError → MypyError → Prop}
    (codes : Option (List PyStr)) {errors : List MypyError}
    (h : List.Pairwise R errors) :
    List.Pairwise R (filter_by_code errors codes) := by
  unfold filter_by_code
  split
  · exact h
  · exact h.filter _

lemma key_of_errorKeyLe {a b : MypyError} (h : errorKeyLe a b = true) :
    pyStrLt a.filename b.filename = true ∨ a.filename = b.filename := by
  simp only [errorKeyLe, Bool.or_eq_true, Bool.and_eq_true,
    decide_eq_true_eq] at h
  rcases h with h | ⟨h, _⟩
  · exact Or.inl h
  · exact Or.inr h

/-- Grouping a filename-chained error list: the first group is headed by the
first element and the group heads carry strictly increasing filenames. -/
lemma pyGroupByGo_heads_lt :
    ∀ (xs : List MypyError) (a : MypyError) (cur : List MypyError),
      List.Chain' (fun u v : MypyError =>
        pyStrLt u.filename v.filename = true ∨ u.filename = v.filename)
        (a :: xs) →
      ∃ t gs,
        pyGroupByGo (fun u v : MypyError => decide (u.filename = v.filename))
          a cur xs = (a :: t) :: gs ∧
        List.Chain' (fun g h : List MypyError =>
          pyStrLt (g.headD ⟨[], 0, none, [], []⟩).filename
            (h.headD ⟨[], 0, none, [], []⟩).filename = true)
          ((a :: t) :: gs) := by
  intro xs
  induction xs with
  | nil =>
      intro a cur hch
      exact ⟨cur.reverse, [], rfl, by simp⟩
  | cons x xs ih =>
      intro a cur hch
      have hax := (List.chain'_cons.mp hch).1
      have hch' := (List.chain'_cons.mp hch).2
      simp only [pyGroupByGo]
      by_cases heq : a.filename = x.filename
      · rw [if_pos (by simp [heq])]
        refine ih a (x :: cur) ?_
        cases xs with
        | nil => simp
        | cons y ys =>
            have h1 := (List.chain'_cons.mp hch').1
            have h2 := (List.chain'_cons.mp hch').2
            refine List.chain'_cons.mpr ⟨?_, h2⟩
            rcases h1 with h1 | h1
            · exact Or.inl (by rw [heq]; exact h1)
            · exact Or.inr (by rw [heq]; exact h1)
      · rw [if_neg (by simp only [decide_eq_true_eq]; exact heq)]
        obtain ⟨t, gs, hgo, hchain⟩ := ih x [] hch'
        rw [hgo]
        refine ⟨cur.reverse, (x :: t) :: gs, rfl, ?_⟩
        refine List.chain'_cons.mpr ⟨?_, hchain⟩
        rcases hax with h | h
        · exact h
        · exact absurd h heq

lemma pyGroupBy_heads_distinct (l : List MypyError)
    (hch : List.Chain' (fun u v : MypyError =>
      pyStrLt u.filename v.filename = true ∨ u.filename = v.filename) l) :
    List.Pairwise (fun g h : List MypyError =>
      (g.headD ⟨[], 0, none, [], []⟩).filename ≠
        (h.headD ⟨[], 0, none, [], []⟩).filename)
      (pyGroupBy (fun u v : MypyError => decide (u.filename = v.filename))
        l) := by
  cases l with
  | nil => simp [pyGroupBy]
  | cons a rest =>
      obtain ⟨t, gs, hgo, hchain⟩ := pyGroupByGo_heads_lt rest a [] hch
      have hpw := (@List.chain'_iff_pairwise _
        (fun g h : List MypyError =>
          pyStrLt (g.headD ⟨[], 0, none, [], []⟩).filename
            (h.headD ⟨[], 0, none, [], []⟩).filename = true)
        ⟨fun _ _ _ h1 h2 => pyStrLt_trans h1 h2⟩ _).mp hchain
      simp only [pyGroupBy, hgo]
      refine hpw.imp ?_
      intro g h hlt he
      rw [he] at hlt
      rw [pyStrLt_irrefl] at hlt
      exact Bool.false_ne_true hlt

/-- The report loop under `dry_run` equals the real loop with the final
file system replaced by the input one, whenever the two loops start from
file systems that agree on the group filenames and those filenames are
pairwise distinct. -/
lemma reportGo_dry_eq (tokenizer : Tokenizer) (dsty fx : PyStr) :
    ∀ (groups : List (List MypyError)) (sil : List MypyError)
      (msgs : List PyStr) (fsD fsR : FS),
      (∀ g ∈ groups,
        fsRead fsR ((g.headD ⟨[], 0, none, [], []⟩).filename) =
          fsRead fsD ((g.headD ⟨[], 0, none, [], []⟩).filename)) →
      List.Pairwise (fun g h : List MypyError =>
        (g.headD ⟨[], 0, none, [], []⟩).filename ≠
          (h.headD ⟨[], 0, none, [], []⟩).filename) groups →
      reportGo tokenizer dsty fx true groups sil msgs fsD =
        (reportGo tokenizer dsty fx false groups sil msgs fsR).map
          (fun out => (out.1, out.2.1, fsD)) := by
  intro groups
  induction groups with
  | nil =>
      intro sil msgs fsD fsR hag hpw
      simp [reportGo, Except.map]
  | cons grp rest ih =>
      intro sil msgs fsD fsR hag hpw
      have hgag := hag grp (List.mem_cons_self _ _)
      cases hD : fsRead fsD ((grp.headD ⟨[], 0, none, [], []⟩).filename) with
      | none =>
          have hR : fsRead fsR ((grp.headD ⟨[], 0, none, [], []⟩).filename) =
              none := by rw [hgag, hD]
          rw [reportGo_cons_missing hD, reportGo_cons_missing hR]
          exact ih _ _ _ _ (fun g hg => hag g (List.mem_cons_of_mem _ hg))
            hpw.of_cons
      | some content =>
          have hR : fsRead fsR ((grp.headD ⟨[], 0, none, [], []⟩).filename) =
              some content := by rw [hgag, hD]
          cases hsf : silence_errors_in_file tokenizer content grp dsty fx with
          | error ex =>
              cases ex
              case tokenError =>
                rw [reportGo_cons_tokfail hD hsf, reportGo_cons_tokfail hR hsf]
                exact ih _ _ _ _
                  (fun g hg => hag g (List.mem_cons_of_mem _ hg)) hpw.of_cons
              all_goals {
                rw [reportGo_cons_err hD hsf (by intro hc; cases hc),
                  reportGo_cons_err hR hsf (by intro hc; cases hc)]
                simp [Except.map] }
          | ok pair =>
              obtain ⟨nc, safe⟩ := pair
              rw [reportGo_cons_ok hD hsf, reportGo_cons_ok hR hsf]
              show reportGo tokenizer dsty fx true rest (sil ++ safe) msgs
                  fsD =
                (reportGo tokenizer dsty fx false rest (sil ++ safe) msgs
                  (fsWrite fsR
                    ((grp.headD ⟨[], 0, none, [], []⟩).filename) nc)).map
                  (fun out => (out.1, out.2.1, fsD))
              refine ih _ _ _ _ ?_ hpw.of_cons
              intro g hg
              rw [fsRead_fsWrite_ne _ _ _ _
                (fun hc => (List.rel_of_pairwise_cons hpw hg) hc.symm)]
              exact hag g (List.mem_cons_of_mem _ hg)

/-- Claim C8 (confirmed).  A dry run of `silence.silence_errors_in_report`
returns exactly the result and messages of a real run on the same inputs,
with the file system left untouched: the dry run equals the real run with
its final file system replaced by the input one. -/
theorem C8_dry_run_equiv
    (tokenizer : Tokenizer) (included : MypyError → Bool) (fs : FS)
    (report : PyStr) (packages modules files : List PyStr)
    (dsty fx : PyStr) (codes : Option (List PyStr)) :
    silence_errors_in_report tokenizer included fs report packages modules
        files dsty fx true codes =
      (silence_errors_in_report tokenizer included fs report packages modules
        files dsty fx false codes).map
        (fun out => (out.1, out.2.1, fs)) := by
  have hs2 : List.Pairwise (fun a b => errorKeyLe a b = true)
      (filter_by_code
        (filter_by_source included packages modules files
          (parse_mypy_report report)) codes) :=
    filter_by_code_pairwise codes
      (filter_by_source_pairwise included packages modules files
        (parse_mypy_report_sorted report))
  have hch := (hs2.imp (fun h => key_of_errorKeyLe h)).chain'
  have hpar := pyGroupBy_heads_distinct _ hch
  simp only [silence_errors_in_report]
  rw [reportGo_dry_eq tokenizer dsty fx _ [] [] fs fs (fun g hg => rfl) hpar]
  cases hrg : reportGo tokenizer dsty fx false
      (pyGroupBy (fun a b : MypyError => decide (a.filename = b.filename))
        (filter_by_code
          (filter_by_source included packages modules files
            (parse_mypy_report report)) codes)) [] [] fs with
  | error ex => simp [Except.map]
  | ok out => simp [Except.map]

/-! ### Comment-synthesis fixed point (C2) -/

lemma pyJoin_single (sep a : PyStr) : pyJoin sep [a] = a := by
  simp [pyJoin, List.intercalate, List.intersperse]

lemma pyJoin_cons₂ (sep : PyStr) (a b : PyStr) (l : List PyStr) :
    pyJoin sep (a :: b :: l) = a ++ sep ++ pyJoin sep (b :: l) := by
  simp [pyJoin, List.intercalate, List.intersperse]

lemma code_char_props {ch : Char} (h : ('a' ≤ ch ∧ ch ≤ 'z') ∨ ch = '-') :
    isCodeChar ch = true ∧ isPyWs ch = false ∧ ch ≠ ',' ∧ ch ≠ ' ' ∧
      ch ≠ '#' ∧ ch ≠ ']' := by
  rcases h with ⟨h1, h2⟩ | rfl
  · have hsp : ch ≠ ' ' := fun hc => by subst hc; exact absurd h1 (by decide)
    have htab : ch ≠ '\t' := fun hc => by subst hc; exact absurd h1 (by decide)
    have hnl : ch ≠ '\n' := fun hc => by subst hc; exact absurd h1 (by decide)
    have hcr : ch ≠ '\r' := fun hc => by subst hc; exact absurd h1 (by decide)
    have hvt : ch ≠ '\x0b' :=
      fun hc => by subst hc; exact absurd h1 (by decide)
    have hff : ch ≠ '\x0c' :=
      fun hc => by subst hc; exact absurd h1 (by decide)
    have hcm : ch ≠ ',' := fun hc => by subst hc; exact absurd h1 (by decide)
    have hha : ch ≠ '#' := fun hc => by subst hc; exact absurd h1 (by decide)
    have hbr : ch ≠ ']' := fun hc => by subst hc; exact absurd h1 (by decide)
    refine ⟨?_, ?_, hcm, hsp, hha, hbr⟩
    · unfold isCodeChar
      rw [decide_eq_true h1, decide_eq_true h2]
      simp
    · simp [isPyWs, hsp, htab, hnl, hcr, hvt, hff]
  · exact ⟨by decide, by decide, by decide, by decide, by decide, by decide⟩

lemma takeWhile_isCodeChar_append {J : PyStr} (r : PyStr)
    (hJ : ∀ ch ∈ J, isCodeChar ch = true) :
    (J ++ ']' :: r).takeWhile isCodeChar = J := by
  induction J with
  | nil => simpa using List.takeWhile_cons_of_neg (p := isCodeChar) (l := r) (by decide)
  | cons c t ih =>
      rw [List.cons_append, List.takeWhile_cons_of_pos (hJ c (by simp)),
        ih (fun ch hch => hJ ch (by simp [hch]))]

lemma ti1MatchAt_canonical {J : PyStr} (rest : PyStr) (hne : J ≠ [])
    (hJ : ∀ ch ∈ J, isCodeChar ch = true) :
    ti1MatchAt ("type: ignore[".data ++ (J ++ ']' :: rest)) =
      some (14 + J.length, some J) := by
  have h1 : matchLit "type".data
      ("type: ignore[".data ++ (J ++ ']' :: rest)) =
      some (": ignore[".data ++ (J ++ ']' :: rest)) := by
    rw [show ("type: ignore[".data ++ (J ++ ']' :: rest) : PyStr) =
      "type".data ++ (": ignore[".data ++ (J ++ ']' :: rest)) by simp]
    exact matchLit_self_append _ _
  have h2 : skipWs (": ignore[".data ++ (J ++ ']' :: rest)) =
      ": ignore[".data ++ (J ++ ']' :: rest) := by
    unfold skipWs
    exact dropWhile_eq_self_of_head _ _ (by intro c hc; injection hc with h; subst h; rfl)
  have h3 : matchLit ":".data (": ignore[".data ++ (J ++ ']' :: rest)) =
      some (" ignore[".data ++ (J ++ ']' :: rest)) := by
    rw [show (": ignore[".data ++ (J ++ ']' :: rest) : PyStr) =
      ":".data ++ (" ignore[".data ++ (J ++ ']' :: rest)) by simp]
    exact matchLit_self_append _ _
  have h4 : skipWs (" ignore[".data ++ (J ++ ']' :: rest)) =
      "ignore[".data ++ (J ++ ']' :: rest) := by
    unfold skipWs
    rw [show (" ignore[".data ++ (J ++ ']' :: rest) : PyStr) =
      ' ' :: ("ignore[".data ++ (J ++ ']' :: rest)) from rfl]
    rw [List.dropWhile_cons_of_pos (by rfl)]
    exact dropWhile_eq_self_of_head _ _ (by intro c hc; injection hc with h; subst h; rfl)
  have h5 : matchLit "ignore".data ("ignore[".data ++ (J ++ ']' :: rest)) =
      some ('[' :: (J ++ ']' :: rest)) := by
    rw [show ("ignore[".data ++ (J ++ ']' :: rest) : PyStr) =
      "ignore".data ++ ('[' :: (J ++ ']' :: rest)) from rfl]
    exact matchLit_self_append _ _
  have hcore : tiCore ("type: ignore[".data ++ (J ++ ']' :: rest)) =
      some ('[' :: (J ++ ']' :: rest)) := by
    unfold tiCore
    rw [h1]
    simp only [Option.some_bind]
    rw [h2, h3]
    simp only [Option.some_bind]
    rw [h4, h5]
  have hbr : bracketGroup ('[' :: (J ++ ']' :: rest)) = some (J, rest) := by
    unfold bracketGroup
    simp only [takeWhile_isCodeChar_append rest hJ]
    rw [if_neg (by simpa using hne)]
    rw [List.drop_left]
    rfl
  unfold ti1MatchAt
  have hlen : ("type: ignore[".data ++ (J ++ ']' :: rest)).length -
      rest.length = 14 + J.length := by
    rw [List.length_append, List.length_append,
      show ("type: ignore[".data : PyStr).length = 13 from rfl,
      List.length_cons]
    omega
  rw [hcore]
  simp only [Option.map_some', hbr]
  rw [hlen]

lemma ti1MatchAt_ne_t {ch : Char} (x : PyStr) (h : ch ≠ 't') :
    ti1MatchAt (ch :: x) = none := by
  have hpre : ("type".data.isPrefixOf (ch :: x)) = false := by
    rw [Bool.eq_false_iff]
    intro hb
    obtain ⟨t, ht⟩ := List.isPrefixOf_iff_prefix.mp hb
    rw [show ("type".data : PyStr) ++ t = 't' :: ("ype".data ++ t) from rfl]
      at ht
    injection ht with h1 _
    exact h h1.symm
  unfold ti1MatchAt tiCore matchLit
  rw [hpre]
  rfl

lemma tiSearch1_cons_none {c : Char} {t : PyStr}
    (h : ti1MatchAt (c :: t) = none) :
    tiSearch1 (c :: t) =
      (tiSearch1 t).map (fun x => (x.1 + 1, x.2.1, x.2.2)) := by
  rw [tiSearch1, h]

lemma tiSearch1_cons_some {c : Char} {t : PyStr} {len : Nat}
    {g : Option PyStr} (h : ti1MatchAt (c :: t) = some (len, g)) :
    tiSearch1 (c :: t) = some (0, len, g) := by
  rw [tiSearch1, h]

lemma tiSearch1_canonical {J : PyStr} (rest : PyStr) (hne : J ≠ [])
    (hJ : ∀ ch ∈ J, isCodeChar ch = true) :
    tiSearch1 ('#' :: ' ' :: ("type: ignore[".data ++ (J ++ ']' :: rest))) =
      some (2, 14 + J.length, some J) := by
  have h2 := ti1MatchAt_canonical rest hne hJ
  rw [show ("type: ignore[".data ++ (J ++ ']' :: rest) : PyStr) =
    't' :: ("ype: ignore[".data ++ (J ++ ']' :: rest)) from rfl] at h2 ⊢
  rw [tiSearch1_cons_none (ti1MatchAt_ne_t _ (by decide)),
    tiSearch1_cons_none (ti1MatchAt_ne_t _ (by decide)),
    tiSearch1_cons_some h2]
  rfl

lemma tiSubGo_skip_ge (repl : PyStr) :
    ∀ (t : PyStr) (k : Nat), t.length ≤ k → tiSubGo repl k t = [] := by
  intro t
  induction t with
  | nil => intro k _; cases k <;> rfl
  | cons c t ih =>
      intro k hk
      cases k with
      | zero => simp at hk
      | succ k' =>
          rw [tiSubGo]
          exact ih k' (by simpa using hk)

lemma tiSubGo_cons_none {repl : PyStr} {c : Char} {t : PyStr}
    (h : ti1MatchAt (c :: t) = none) :
    tiSubGo repl 0 (c :: t) = c :: tiSubGo repl 0 t := by
  simp only [tiSubGo, h]

lemma tiSubGo_cons_some {repl : PyStr} {c : Char} {t : PyStr} {len : Nat}
    {g : Option PyStr} (h : ti1MatchAt (c :: t) = some (len, g)) :
    tiSubGo repl 0 (c :: t) = repl ++ tiSubGo repl (len - 1) t := by
  simp only [tiSubGo, h]

lemma tiSub1_canonical {J : PyStr} (repl : PyStr) (hne : J ≠ [])
    (hJ : ∀ ch ∈ J, isCodeChar ch = true) :
    tiSub1 repl ("# type: ignore[".data ++ J ++ "]".data) =
      "# ".data ++ repl := by
  have hshape : ("# type: ignore[".data ++ J ++ "]".data : PyStr) =
      '#' :: ' ' :: 't' :: ("ype: ignore[".data ++ (J ++ ']' :: [])) := by
    simp
  have h2 := ti1MatchAt_canonical (J := J) [] hne hJ
  rw [show ("type: ignore[".data ++ (J ++ ']' :: []) : PyStr) =
    't' :: ("ype: ignore[".data ++ (J ++ ']' :: [])) from rfl] at h2
  have hskip : tiSubGo repl (14 + J.length - 1)
      ("ype: ignore[".data ++ (J ++ ']' :: [])) = [] := by
    apply tiSubGo_skip_ge
    simp only [List.length_append, List.length_cons, List.length_nil,
      show ("ype: ignore[".data : PyStr).length = 12 from rfl]
    omega
  unfold tiSub1
  rw [hshape, tiSubGo_cons_none (ti1MatchAt_ne_t _ (by decide)),
    tiSubGo_cons_none (ti1MatchAt_ne_t _ (by decide)),
    tiSubGo_cons_some h2, hskip]
  simp

lemma pyReplaceGo_skip_append (old new : PyStr) :
    ∀ (a : PyStr) (r : PyStr),
      pyReplaceGo old new a.length (a ++ r) = pyReplaceGo old new 0 r := by
  intro a
  induction a with
  | nil => intro r; rfl
  | cons c t ih =>
      intro r
      rw [List.cons_append, List.length_cons, pyReplaceGo]
      exact ih r

lemma pyReplaceGo_cons_pos {old new : PyStr} {c : Char} {t : PyStr}
    (h : old.isPrefixOf (c :: t) = true) :
    pyReplaceGo old new 0 (c :: t) =
      new ++ pyReplaceGo old new (old.length - 1) t := by
  simp only [pyReplaceGo]
  rw [if_pos h]

lemma pyReplaceGo_cons_neg {old new : PyStr} {c : Char} {t : PyStr}
    (h : old.isPrefixOf (c :: t) = false) :
    pyReplaceGo old new 0 (c :: t) = c :: pyReplaceGo old new 0 t := by
  simp only [pyReplaceGo]
  rw [if_neg (by simp [h])]

lemma pyReplaceGo_self (t : PyStr) (htne : t ≠ []) :
    ∀ (n : Nat) (s : PyStr), s.length ≤ n → pyReplaceGo t t 0 s = s := by
  intro n
  induction n with
  | zero =>
      intro s hs
      rw [List.length_eq_zero.mp (Nat.le_zero.mp hs)]
      rfl
  | succ n ih =>
      intro s hs
      cases s with
      | nil => rfl
      | cons c s' =>
          by_cases hp : t.isPrefixOf (c :: s') = true
          · obtain ⟨rest, hrest⟩ := List.isPrefixOf_iff_prefix.mp hp
            cases t with
            | nil => exact absurd rfl htne
            | cons c₀ t₂ =>
                rw [List.cons_append] at hrest
                injection hrest with hc hs'
                subst hc
                rw [pyReplaceGo_cons_pos hp, List.length_cons,
                  Nat.add_sub_cancel, ← hs', pyReplaceGo_skip_append]
                have hrl : rest.length ≤ n := by
                  have h1 : s'.length ≤ n := by
                    simpa using hs
                  rw [← hs'] at h1
                  simp [List.length_append] at h1
                  omega
                rw [ih rest hrl, List.cons_append]
          · have hp' : t.isPrefixOf (c :: s') = false :=
              Bool.eq_false_iff.mpr hp
            rw [pyReplaceGo_cons_neg hp']
            rw [ih s' (by simpa using hs)]

lemma pyReplace_self (s t : PyStr) : pyReplace s t t = s := by
  unfold pyReplace
  cases t with
  | nil => rfl
  | cons c₀ t₂ =>
      rw [if_neg (by simp)]
      exact pyReplaceGo_self _ (by simp) s.length s (le_refl _)

lemma pySplitChar_ne_nil (sep : Char) (s : PyStr) :
    pySplitChar sep s ≠ [] := by
  cases s with
  | nil => simp [pySplitChar]
  | cons c rest =>
      simp only [pySplitChar]
      split
      · simp
      · split <;> simp

lemma pySplitChar_no_sep (sep : Char) :
    ∀ {s : PyStr}, (∀ c ∈ s, c ≠ sep) → pySplitChar sep s = [s] := by
  intro s
  induction s with
  | nil => intro _; rfl
  | cons c rest ih =>
      intro hs
      simp only [pySplitChar]
      rw [if_neg (by simpa using hs c (by simp))]
      rw [ih (fun c hc => hs c (by simp [hc]))]

lemma pySplitChar_append_entry (sep : Char) :
    ∀ {s : PyStr} (r : PyStr), (∀ c ∈ s, c ≠ sep) →
      pySplitChar sep (s ++ sep :: r) = s :: pySplitChar sep r := by
  intro s
  induction s with
  | nil =>
      intro r _
      simp only [List.nil_append, pySplitChar]
      simp
  | cons c t ih =>
      intro r hs
      rw [List.cons_append]
      simp only [pySplitChar]
      rw [if_neg (by simpa using hs c (by simp))]
      rw [ih r (fun c hc => hs c (by simp [hc]))]

lemma pyReplaceGo_space (s : PyStr) :
    pyReplaceGo [' '] [] 0 s = s.filter (fun ch => decide (ch ≠ ' ')) := by
  induction s with
  | nil => rfl
  | cons c t ih =>
      by_cases hc : c = ' '
      · subst hc
        rw [pyReplaceGo_cons_pos (by simp [List.isPrefixOf])]
        simpa using ih
      · rw [pyReplaceGo_cons_neg (by simp [List.isPrefixOf, Ne.symm hc])]
        rw [ih]
        simp [List.filter_cons, hc]

lemma filter_space_join :
    ∀ (S : List PyStr), (∀ s ∈ S, ∀ ch ∈ s, ch ≠ ' ') →
      (pyJoin ", ".data S).filter (fun ch => decide (ch ≠ ' ')) =
        pyJoin ",".data S := by
  intro S
  induction S with
  | nil => intro _; rfl
  | cons a S' ih =>
      intro hS
      cases S' with
      | nil =>
          simp only [pyJoin_single]
          exact List.filter_eq_self.mpr
            (fun ch hch => by simpa using hS a (by simp) ch hch)
      | cons b S'' =>
          rw [pyJoin_cons₂, pyJoin_cons₂]
          rw [List.filter_append, List.filter_append]
          rw [List.filter_eq_self.mpr
            (fun ch hch => by simpa using hS a (by simp) ch hch)]
          rw [ih (fun s hs => hS s (by simp [hs]))]
          rfl

lemma pySplitChar_join :
    ∀ (S : List PyStr), (∀ s ∈ S, ∀ ch ∈ s, ch ≠ ',') → S ≠ [] →
      pySplitChar ',' (pyJoin ",".data S) = S := by
  intro S
  induction S with
  | nil => intro _ h; exact absurd rfl h
  | cons a S' ih =>
      intro hS _
      cases S' with
      | nil =>
          rw [pyJoin_single]
          exact pySplitChar_no_sep ',' (hS a (by simp))
      | cons b S'' =>
          rw [pyJoin_cons₂,
            show (a ++ ",".data ++ pyJoin ",".data (b :: S'') : PyStr) =
              a ++ ',' :: pyJoin ",".data (b :: S'') by simp]
          rw [pySplitChar_append_entry ',' _ (hS a (by simp))]
          rw [ih (fun s hs => hS s (by simp [hs])) (by simp)]

lemma pyStrip_space_cons (s : PyStr)
    (hws : ∀ ch ∈ s, isPyWs ch = false) :
    pyStrip (' ' :: s) = s := by
  unfold pyStrip pyLstripP
  rw [List.dropWhile_cons_of_pos (by rfl)]
  rw [dropWhile_eq_self_of_head isPyWs s
    (fun c hc => hws c (List.mem_of_mem_head? hc))]
  exact pyRstripP_eq_self isPyWs s
    (fun c hc => hws c (List.mem_of_mem_getLast? hc))

lemma pyStrip_eq_self_of_no_ws (s : PyStr)
    (hws : ∀ ch ∈ s, isPyWs ch = false) : pyStrip s = s :=
  pyStrip_eq_self s (fun c hc => hws c (List.mem_of_mem_head? hc))
    (fun c hc => hws c (List.mem_of_mem_getLast? hc))

lemma split_strip_join :
    ∀ (S : List PyStr), S ≠ [] →
      (∀ s ∈ S, ∀ ch ∈ s, isPyWs ch = false ∧ ch ≠ ',') →
      (pySplitChar ',' (pyJoin ", ".data S)).map pyStrip = S ∧
      (pySplitChar ',' (' ' :: pyJoin ", ".data S)).map pyStrip = S := by
  intro S
  induction S with
  | nil => intro h _; exact absurd rfl h
  | cons a S' ih =>
      intro _ hS
      have hano : ∀ ch ∈ a, ch ≠ ',' := fun ch hch => (hS a (by simp) ch hch).2
      have hanw : ∀ ch ∈ a, isPyWs ch = false :=
        fun ch hch => (hS a (by simp) ch hch).1
      cases S' with
      | nil =>
          constructor
          · rw [pyJoin_single, pySplitChar_no_sep ',' hano]
            simp [pyStrip_eq_self_of_no_ws a hanw]
          · rw [pyJoin_single,
              show (' ' :: a : PyStr) = (' ' :: a) ++ [] by simp]
            rw [show ((' ' :: a) ++ [] : PyStr) = ' ' :: a by simp]
            rw [pySplitChar_no_sep ','
              (by intro c hc
                  rcases List.mem_cons.mp hc with rfl | hc
                  · decide
                  · exact hano c hc)]
            simp [pyStrip_space_cons a hanw]
      | cons b S'' =>
          obtain ⟨ih1, ih2⟩ := ih (by simp) (fun s hs => hS s (by simp [hs]))
          have hjoin : (pyJoin ", ".data (a :: b :: S'') : PyStr) =
              a ++ ',' :: (' ' :: pyJoin ", ".data (b :: S'')) := by
            rw [pyJoin_cons₂]
            simp
          constructor
          · rw [hjoin, pySplitChar_append_entry ',' _ hano]
            rw [List.map_cons, pyStrip_eq_self_of_no_ws a hanw, ih2]
          · rw [hjoin,
              show (' ' :: (a ++ ',' :: (' ' :: pyJoin ", ".data (b :: S''))) :
                PyStr) = (' ' :: a) ++ ',' ::
                  (' ' :: pyJoin ", ".data (b :: S'')) by simp]
            rw [pySplitChar_append_entry ','
              _ (by intro c hc
                    rcases List.mem_cons.mp hc with rfl | hc
                    · decide
                    · exact hano c hc)]
            rw [List.map_cons, pyStrip_space_cons a hanw, ih2]

lemma pySet_eq_self : ∀ {l : List PyStr}, l.Nodup → pySet l = l := by
  intro l
  induction l with
  | nil => intro _; rfl
  | cons x xs ih =>
      intro hnd
      simp only [pySet]
      rw [ih (List.nodup_cons.mp hnd).2]
      rw [List.filter_eq_self.mpr]
      intro b hb
      simp only [ne_eq, decide_eq_true_eq]
      intro hc
      subst hc
      exact (List.nodup_cons.mp hnd).1 hb

lemma mem_pyJoin {ch : Char} (sep : PyStr) :
    ∀ (S : List PyStr), ch ∈ pyJoin sep S →
      ch ∈ sep ∨ ∃ s ∈ S, ch ∈ s := by
  intro S
  induction S with
  | nil => intro h; simp [pyJoin, List.intercalate] at h
  | cons a S' ih =>
      intro h
      cases S' with
      | nil =>
          rw [pyJoin_single] at h
          exact Or.inr ⟨a, by simp, h⟩
      | cons b S'' =>
          rw [pyJoin_cons₂] at h
          rcases List.mem_append.mp h with h1 | h1
          · rcases List.mem_append.mp h1 with h2 | h2
            · exact Or.inr ⟨a, by simp, h2⟩
            · exact Or.inl h2
          · rcases ih h1 with h2 | ⟨s, hs, hss⟩
            · exact Or.inl h2
            · exact Or.inr ⟨s, by simp [hs], hss⟩

lemma extract_fold :
    ∀ (errors : List MypyError),
      (∀ e ∈ errors, e.error_code ≠ "unused-ignore".data ∧
        e.error_code ≠ "ignore-without-code".data) →
      ∀ acc : List PyStr × List PyStr × List PyStr,
      errors.foldl
        (fun acc error =>
          let toAdd := acc.1
          let descs := acc.2.1
          let toRemove := acc.2.2
          let codesInMessage :=
            let c := string_to_error_codes error.message
            if c.isEmpty then ["*".data] else c
          if error.error_code = "unused-ignore".data ||
              (error.error_code = "ignore-without-code".data &&
                decide ("*".data ∈ codesInMessage)) then
            (toAdd, descs, toRemove ++ codesInMessage)
          else if error.error_code = "ignore-without-code".data then
            (toAdd ++ codesInMessage,
              descs ++ codesInMessage.map (fun _ => "No message".data),
              toRemove)
          else
            (toAdd ++ [error.error_code], descs ++ [error.message], toRemove))
        acc =
      (acc.1 ++ errors.map (fun e => e.error_code),
        acc.2.1 ++ errors.map (fun e => e.message), acc.2.2) := by
  intro errors
  induction errors with
  | nil => intro _ acc; simp
  | cons e rest ih =>
      intro hord acc
      rw [List.foldl_cons]
      have h1 := (hord e (by simp)).1
      have h2 := (hord e (by simp)).2
      rw [ih (fun x hx => hord x (by simp [hx]))]
      rw [if_neg (by simp [h1, h2]), if_neg (by simp [h2])]
      simp

lemma extract_ordinary (errors : List MypyError)
    (hord : ∀ e ∈ errors, e.error_code ≠ "unused-ignore".data ∧
      e.error_code ≠ "ignore-without-code".data) :
    _extract_error_details errors =
      (errors.map (fun e => e.error_code),
        errors.map (fun e => e.message), []) := by
  unfold _extract_error_details
  have key := extract_fold errors hord ([], [], [])
  simpa using key

lemma remove_canonical {J : PyStr} (hJne : J ≠ [])
    (hJcode : ∀ ch ∈ J, isCodeChar ch = true) :
    remove_unused_type_ignore_comments
      ("# type: ignore[".data ++ J ++ "]".data) [] =
      .ok ("# type: ignore[".data ++ J ++ "]".data) := by
  have hcshape : ("# type: ignore[".data ++ J ++ "]".data : PyStr) =
      '#' :: ' ' :: ("type: ignore[".data ++ (J ++ ']' :: [])) := by simp
  have hsearch := tiSearch1_canonical (J := J) [] hJne hJcode
  unfold remove_unused_type_ignore_comments
  rw [if_neg (by simp)]
  rw [hcshape, hsearch]
  simp only [List.foldl_nil, Option.getD_some]
  rw [← hcshape, tiSub1_canonical _ hJne hJcode]
  simp

lemma format_canonical {J : PyStr} {S : List PyStr} (hSne : S ≠ [])
    (hJ : J = pyJoin ", ".data S)
    (hJne : J ≠ []) (hJcode : ∀ ch ∈ J, isCodeChar ch = true)
    (hSent : ∀ s ∈ S, s ≠ [] ∧ ∀ ch ∈ s, isPyWs ch = false ∧ ch ≠ ',') :
    format_type_ignore_comment ("# type: ignore[".data ++ J ++ "]".data) =
      "# type: ignore[".data ++ J ++ "]".data := by
  have hcshape : ("# type: ignore[".data ++ J ++ "]".data : PyStr) =
      '#' :: ' ' :: ("type: ignore[".data ++ (J ++ ']' :: [])) := by simp
  have hsearch := tiSearch1_canonical (J := J) [] hJne hJcode
  have hsplit : (pySplitChar ',' J).map pyStrip = S := by
    rw [hJ]
    exact (split_strip_join S hSne (fun s hs => (hSent s hs).2)).1
  have hpruned : ((pySplitChar ',' J).map pyStrip).filter
      (fun c => !c.isEmpty) = S := by
    rw [hsplit]
    exact List.filter_eq_self.mpr
      (fun s hs => by simpa using (hSent s hs).1)
  unfold format_type_ignore_comment
  simp only [formatGo]
  rw [hcshape, hsearch]
  simp only [hpruned]
  rw [← hJ, ← hcshape, pyReplace_self]
  rw [if_pos (by simpa using hSne)]

lemma add_canonical {J : PyStr} {S toAdd : List PyStr} (hSne : S ≠ [])
    (hS : S = pySortStrs toAdd)
    (hJ : J = pyJoin ", ".data S)
    (hJne : J ≠ []) (hJcode : ∀ ch ∈ J, isCodeChar ch = true)
    (hSnd : S.Nodup)
    (hmemS : ∀ s ∈ S, s ∈ toAdd)
    (hSent : ∀ s ∈ S, s ≠ [] ∧
      ∀ ch ∈ s, isPyWs ch = false ∧ ch ≠ ',' ∧ ch ≠ ' ') :
    add_type_ignore_comment ("# type: ignore[".data ++ J ++ "]".data)
      toAdd = "# type: ignore[".data ++ J ++ "]".data := by
  have hcshape : ("# type: ignore[".data ++ J ++ "]".data : PyStr) =
      '#' :: ' ' :: ("type: ignore[".data ++ (J ++ ']' :: [])) := by simp
  have hsearch := tiSearch1_canonical (J := J) [] hJne hJcode
  have hrepl : pyReplace J " ".data [] = pyJoin ",".data S := by
    unfold pyReplace
    rw [if_neg (by simp)]
    rw [show (" ".data : PyStr) = [' '] from rfl, pyReplaceGo_space, hJ]
    rw [show (fun ch => decide (ch ≠ ' ')) =
      (fun ch => decide (ch ≠ ' ')) from rfl]
    exact filter_space_join S (fun s hs ch hch => (hSent s hs).2 ch hch |>.2.2)
  have hsplit2 : pySplitChar ',' (pyJoin ",".data S) = S :=
    pySplitChar_join S (fun s hs ch hch => ((hSent s hs).2 ch hch).2.1) hSne
  have hset : pySet S = S := pySet_eq_self hSnd
  have hfilter : S.filter (fun e => !(decide (e ∈ toAdd))) = [] := by
    rw [List.filter_eq_nil]
    intro s hs
    simp [hmemS s hs]
  unfold add_type_ignore_comment
  rw [hcshape, hsearch]
  simp only [hrepl, hsplit2, hset, hfilter, List.append_nil]
  rw [← hcshape, tiSub1_canonical _ hJne hJcode]
  rw [show ("# ".data ++ ([] : PyStr) : PyStr) = "# ".data by simp]
  rw [show hasNonHashNonWs "# ".data = false from by decide]
  simp only [Bool.not_false, if_neg]
  rw [← hS, ← hJ]
  simp

/-- Claim C2 (corrected): amended.  The report-level double run is not
idempotent in general (see `C2_idempotence_counterexample`: the fix-me
marker and the error descriptions are re-appended on every run).  Restricted
to the default fix-me/description configuration (`fix_me = ""`,
`description_style = "none"`) and to ordinary diagnostics (no
`unused-ignore`/`ignore-without-code`) with nonempty, duplicate-free,
`[a-z-]` code names, comment synthesis is a fixed point on its own output:
the canonical comment `"# type: ignore[<sorted codes>]"` is reproduced
byte-identically, so a second run changes nothing on such lines. -/
theorem C2_idempotence_amended
    (errors : List MypyError) (hne : errors ≠ [])
    (hord : ∀ e ∈ errors, e.error_code ≠ "unused-ignore".data ∧
      e.error_code ≠ "ignore-without-code".data)
    (hwf : ∀ e ∈ errors, e.error_code ≠ [] ∧
      ∀ ch ∈ e.error_code, ('a' ≤ ch ∧ ch ≤ 'z') ∨ ch = '-')
    (hnd : (errors.map (fun e => e.error_code)).Nodup) :
    create_suppression_comment
      ("# type: ignore[".data ++
        pyJoin ", ".data
          (pySortStrs (errors.map (fun e => e.error_code))) ++ "]".data)
      errors "none".data [] =
    .ok ("# type: ignore[".data ++
      pyJoin ", ".data
        (pySortStrs (errors.map (fun e => e.error_code))) ++ "]".data) := by
  have hperm : (pySortStrs (errors.map (fun e => e.error_code))).Perm
      (errors.map (fun e => e.error_code)) :=
    List.perm_insertionSort _ _
  have hSnd : (pySortStrs (errors.map (fun e => e.error_code))).Nodup :=
    hperm.nodup_iff.mpr hnd
  have hSwfm : ∀ s ∈ pySortStrs (errors.map (fun e => e.error_code)),
      s ≠ [] ∧ ∀ ch ∈ s, ('a' ≤ ch ∧ ch ≤ 'z') ∨ ch = '-' := by
    intro s hs
    obtain ⟨e, he, rfl⟩ := List.mem_map.mp (hperm.mem_iff.mp hs)
    exact hwf e he
  have hSne : pySortStrs (errors.map (fun e => e.error_code)) ≠ [] := by
    intro hc
    rw [hc] at hperm
    have h0 := hperm.symm.eq_nil
    rw [List.map_eq_nil] at h0
    exact hne h0
  have hSent : ∀ s ∈ pySortStrs (errors.map (fun e => e.error_code)),
      s ≠ [] ∧ ∀ ch ∈ s, isPyWs ch = false ∧ ch ≠ ',' ∧ ch ≠ ' ' := by
    intro s hs
    refine ⟨(hSwfm s hs).1, ?_⟩
    intro ch hch
    have h := code_char_props ((hSwfm s hs).2 ch hch)
    exact ⟨h.2.1, h.2.2.1, h.2.2.2.1⟩
  have hJne : pyJoin ", ".data
      (pySortStrs (errors.map (fun e => e.error_code))) ≠ [] := by
    obtain ⟨s₀, hs₀⟩ := List.exists_mem_of_ne_nil _ hSne
    exact pyJoin_ne_nil ⟨s₀, hs₀, (hSwfm s₀ hs₀).1⟩
  have hJcode : ∀ ch ∈ pyJoin ", ".data
      (pySortStrs (errors.map (fun e => e.error_code))),
      isCodeChar ch = true := by
    intro ch hch
    rcases mem_pyJoin ", ".data _ hch with h | ⟨s, hs, hss⟩
    · rcases List.mem_cons.mp h with rfl | h
      · decide
      · simp only [List.mem_singleton] at h
        subst h
        decide
    · exact (code_char_props ((hSwfm s hs).2 ch hss)).1
  have htoAddne : (errors.map (fun e => e.error_code)).isEmpty = false := by
    cases errors with
    | nil => exact absurd rfl hne
    | cons e rest => rfl
  simp only [create_suppression_comment, extract_ordinary errors hord]
  rw [remove_canonical hJne hJcode]
  simp only [Except.map]
  rw [format_canonical hSne rfl hJne hJcode
    (fun s hs => ⟨(hSent s hs).1,
      fun ch hch => ⟨((hSent s hs).2 ch hch).1, ((hSent s hs).2 ch hch).2.1⟩⟩)]
  rw [add_canonical hSne rfl rfl hJne hJcode hSnd
    (fun s hs => hperm.mem_iff.mp hs) hSent]
  rw [htoAddne]
  simp

/-- Witness for `C2_idempotence_amended`: rewriting the comment
`# type: ignore[arg-type]` a second time for the same `arg-type` diagnostic
returns it unchanged. -/
theorem C2_idempotence_amended_witness :
    create_suppression_comment "# type: ignore[arg-type]".data
      [⟨"a.py".data, 1, none, "m".data, "arg-type".data⟩] "none".data [] =
      .ok "# type: ignore[arg-type]".data := by
  have h := C2_idempotence_amended
    [⟨"a.py".data, 1, none, "m".data, "arg-type".data⟩]
    (by decide) (by decide) (by decide) (by decide)
  exact h

end MypyUpgrade
